import Mathlib

/-!
Verification of the C64 chunky-pixel rasterizer (`src/c/rasterize.c`,
`src/c/mesh.c`) against its natural-language specification.

The C code is shallowly embedded: the pixel buffer is a flat byte memory
(`Int → Nat`, each cell holding an 8-bit value), C `int` arithmetic is
modelled with `Int`, C's truncating division with `Int.tdiv`, and the
arithmetic right shift `>>` of gcc with floor division (`/` on `Int`,
i.e. `Int.ediv`, which floors for positive divisors).  Stores into the
`unsigned char` buffer truncate to 8 bits; since every stored expression
in the code is already masked below 256, the model stores it directly.
-/

set_option maxRecDepth 100000

namespace C64

/-- Flat byte memory: byte index → byte value.  The C buffer is
`unsigned char buf[1000]`; indices outside `[0,1000)` model the
surrounding memory (the code never reaches them on in-bounds input). -/
def Buf := Int → Nat

/-- Pointwise byte store `buf[i] = v`. -/
def updateByte (buf : Buf) (i : Int) (v : Nat) : Buf :=
  fun j => if j = i then v else buf j

/- Screen constants from rasterize.h -/
def SCREEN_WIDTH : Int := 80
def SCREEN_HEIGHT : Int := 50
def CHAR_WIDTH : Int := 40
def CHAR_HEIGHT : Int := 25

/- Chunky pixel bit positions within a character byte (rasterize.h):
   bits 7-6 top-left, 5-4 top-right, 3-2 bottom-left, 1-0 bottom-right. -/
def PIXEL_TL_SHIFT : Nat := 6
def PIXEL_TR_SHIFT : Nat := 4
def PIXEL_BL_SHIFT : Nat := 2
def PIXEL_BR_SHIFT : Nat := 0

def PIXEL_TL_MASK : Nat := 3 <<< PIXEL_TL_SHIFT
def PIXEL_TR_MASK : Nat := 3 <<< PIXEL_TR_SHIFT
def PIXEL_BL_MASK : Nat := 3 <<< PIXEL_BL_SHIFT
def PIXEL_BR_MASK : Nat := 3 <<< PIXEL_BR_SHIFT

/-- `row_offset[y] = y * CHAR_WIDTH` (the lookup table of init_tables). -/
def row_offset (char_y : Int) : Int := char_y * CHAR_WIDTH

/-- `top_row_mask` lookup table from `init_tables`. -/
def top_row_mask (i : Nat) : Nat :=
  match i with
  | 0 => 0
  | 1 => PIXEL_TR_MASK
  | 2 => PIXEL_TL_MASK
  | _ => PIXEL_TL_MASK ||| PIXEL_TR_MASK

/-- `bottom_row_mask` lookup table from `init_tables`. -/
def bottom_row_mask (i : Nat) : Nat :=
  match i with
  | 0 => 0
  | 1 => PIXEL_BR_MASK
  | 2 => PIXEL_BL_MASK
  | _ => PIXEL_BL_MASK ||| PIXEL_BR_MASK

/-- `set_pixel` from rasterize.c.  After the bounds guard the coordinates
are nonnegative, so C's `x >> 1` and `x & 1` agree with `/` and `%`.
The store `(buf[o] & ~mask) | ((color << shift) & mask)` is written with
`255 ^^^ mask` for `~mask`: the operand is an 8-bit byte. -/
def set_pixel (buf : Buf) (x y : Int) (color : Nat) : Buf :=
  if x < 0 ∨ SCREEN_WIDTH ≤ x ∨ y < 0 ∨ SCREEN_HEIGHT ≤ y then buf
  else
    let char_x : Int := x / 2
    let char_y : Int := y / 2
    let sub_x : Int := x % 2
    let sub_y : Int := y % 2
    let offset : Int := row_offset char_y + char_x
    let shift : Nat :=
      if sub_y = 0 then (if sub_x = 0 then PIXEL_TL_SHIFT else PIXEL_TR_SHIFT)
      else (if sub_x = 0 then PIXEL_BL_SHIFT else PIXEL_BR_SHIFT)
    let mask : Nat := 3 <<< shift
    updateByte buf offset ((buf offset &&& (255 ^^^ mask)) ||| ((color <<< shift) &&& mask))

/-- `get_pixel` from rasterize.c. -/
def get_pixel (buf : Buf) (x y : Int) : Nat :=
  if x < 0 ∨ SCREEN_WIDTH ≤ x ∨ y < 0 ∨ SCREEN_HEIGHT ≤ y then 0
  else
    let char_x : Int := x / 2
    let char_y : Int := y / 2
    let sub_x : Int := x % 2
    let sub_y : Int := y % 2
    let offset : Int := row_offset char_y + char_x
    let shift : Nat :=
      if sub_y = 0 then (if sub_x = 0 then PIXEL_TL_SHIFT else PIXEL_TR_SHIFT)
      else (if sub_x = 0 then PIXEL_BL_SHIFT else PIXEL_BR_SHIFT)
    (buf offset >>> shift) &&& 3

/-- Two buffers are pixel-identical when `get_pixel` agrees everywhere. -/
def pixEq (b1 b2 : Buf) : Prop := ∀ x y : Int, get_pixel b1 x y = get_pixel b2 x y

/- ### Bit-level reduction lemmas
Reads and masked stores only depend on the low 8 bits of a byte and the
low 2 bits of a color, which lets the per-byte facts be settled by
`decide` over the bounded ranges. -/

theorem and_low (b m : Nat) (hm : m < 256) : b &&& m = (b % 256) &&& m := by
  apply Nat.eq_of_testBit_eq
  intro i
  simp only [Nat.testBit_and]
  rcases lt_or_ge i 8 with h | h
  · have : (b % 256).testBit i = b.testBit i := by
      have := Nat.testBit_mod_two_pow b 8 i
      simpa [show (256 : Nat) = 2 ^ 8 by norm_num, h] using this
    rw [this]
  · have : m.testBit i = false :=
      Nat.testBit_eq_false_of_lt (lt_of_lt_of_le hm (by
        calc (256 : Nat) = 2 ^ 8 := by norm_num
        _ ≤ 2 ^ i := Nat.pow_le_pow_right (by norm_num) h))
    simp [this]

theorem read_low (b : Nat) (s : Nat) (hs : s + 2 ≤ 8) :
    (b >>> s) &&& 3 = ((b % 256) >>> s) &&& 3 := by
  apply Nat.eq_of_testBit_eq
  intro i
  simp only [Nat.testBit_and, Nat.testBit_shiftRight]
  rcases lt_or_ge i 2 with h | h
  · have : (b % 256).testBit (s + i) = b.testBit (s + i) := by
      have := Nat.testBit_mod_two_pow b 8 (s + i)
      simpa [show (256 : Nat) = 2 ^ 8 by norm_num, show s + i < 8 by omega] using this
    rw [this]
  · have : (3 : Nat).testBit i = false :=
      Nat.testBit_eq_false_of_lt (by
        calc (3 : Nat) < 2 ^ 2 := by norm_num
        _ ≤ 2 ^ i := Nat.pow_le_pow_right (by norm_num) h)
    simp [this]

theorem color_low (c s : Nat) :
    (c <<< s) &&& (3 <<< s) = ((c % 4) <<< s) &&& (3 <<< s) := by
  apply Nat.eq_of_testBit_eq
  intro i
  simp only [Nat.testBit_and, Nat.testBit_shiftLeft]
  rcases lt_or_ge i s with h | h
  · simp [show ¬ (i ≥ s) by omega]
  · rcases lt_or_ge (i - s) 2 with h2 | h2
    · have : (c % 4).testBit (i - s) = c.testBit (i - s) := by
        have := Nat.testBit_mod_two_pow c 2 (i - s)
        simpa [show (4 : Nat) = 2 ^ 2 by norm_num, h2] using this
      rw [this]
    · have : (3 : Nat).testBit (i - s) = false :=
        Nat.testBit_eq_false_of_lt (by
          calc (3 : Nat) < 2 ^ 2 := by norm_num
          _ ≤ 2 ^ (i - s) := Nat.pow_le_pow_right (by norm_num) h2)
      simp [this]

/-- The byte produced by a single-quadrant masked store
`(b & ~(3<<s)) | ((c<<s) & (3<<s))` (the store in `set_pixel`). -/
def wrByte (b c s : Nat) : Nat := (b &&& (255 ^^^ (3 <<< s))) ||| ((c <<< s) &&& (3 <<< s))

/-- The 2-bit field read `(b >> s) & 3` (the read in `get_pixel`). -/
def rdByte (b s : Nat) : Nat := (b >>> s) &&& 3

theorem rdByte_wrByte_core : ∀ b < 256, ∀ c < 4, ∀ k < 4, ∀ k' < 4,
    rdByte (wrByte b c (2 * k)) (2 * k') = if k' = k then c else rdByte b (2 * k') := by
  decide

theorem notMask_lt (s : Nat) (hs : s ≤ 6) : 255 ^^^ (3 <<< s) < 256 := by
  have h3 : (3 <<< s) < 2 ^ 8 := by
    rw [Nat.shiftLeft_eq]
    calc 3 * 2 ^ s ≤ 3 * 2 ^ 6 := by
          exact Nat.mul_le_mul_left 3 (Nat.pow_le_pow_right (by norm_num) hs)
    _ < 2 ^ 8 := by norm_num
  exact Nat.xor_lt_two_pow (by norm_num) h3

theorem wrByte_low (b c s : Nat) (hs : s ≤ 6) :
    wrByte b c s = wrByte (b % 256) (c % 4) s := by
  unfold wrByte
  rw [and_low b _ (notMask_lt s hs), color_low]

theorem rdByte_low (b s : Nat) (hs : s ≤ 6) : rdByte b s = rdByte (b % 256) s :=
  read_low b s (by omega)

/-- Reading any quadrant after a single-quadrant masked store: the stored
quadrant reads back `c % 4`, the other three read the old byte. -/
theorem rdByte_wrByte (b c k k' : Nat) (hk : k < 4) (hk' : k' < 4) :
    rdByte (wrByte b c (2 * k)) (2 * k') = if k' = k then c % 4 else rdByte b (2 * k') := by
  rw [wrByte_low b c _ (by omega), rdByte_low b _ (by omega),
    rdByte_wrByte_core (b % 256) (Nat.mod_lt _ (by norm_num)) (c % 4)
      (Nat.mod_lt _ (by norm_num)) k hk k' hk']

/-- The pixel coordinates that reach the table lookups of
`set_pixel`/`get_pixel`. -/
def inBounds (x y : Int) : Prop :=
  0 ≤ x ∧ x < SCREEN_WIDTH ∧ 0 ≤ y ∧ y < SCREEN_HEIGHT

instance (x y : Int) : Decidable (inBounds x y) := by
  unfold inBounds; infer_instance

/-- Byte index addressed by pixel (x,y): `row_offset[y>>1] + (x>>1)`. -/
def byteIdx (x y : Int) : Int := row_offset (y / 2) + x / 2

/-- Quadrant index of pixel (x,y); the bit shift used by the code is
`2 * pixQuad x y` (TL↦3, TR↦2, BL↦1, BR↦0). -/
def pixQuad (x y : Int) : Nat :=
  if y % 2 = 0 then (if x % 2 = 0 then 3 else 2) else (if x % 2 = 0 then 1 else 0)

theorem pixQuad_lt (x y : Int) : pixQuad x y < 4 := by
  unfold pixQuad; split_ifs <;> norm_num

theorem bounds_guard (x y : Int) :
    (x < 0 ∨ SCREEN_WIDTH ≤ x ∨ y < 0 ∨ SCREEN_HEIGHT ≤ y) ↔ ¬ inBounds x y := by
  unfold inBounds SCREEN_WIDTH SCREEN_HEIGHT
  omega

theorem get_pixel_in (buf : Buf) (x y : Int) (h : inBounds x y) :
    get_pixel buf x y = rdByte (buf (byteIdx x y)) (2 * pixQuad x y) := by
  simp only [get_pixel, rdByte, byteIdx, pixQuad,
    PIXEL_TL_SHIFT, PIXEL_TR_SHIFT, PIXEL_BL_SHIFT, PIXEL_BR_SHIFT]
  rw [if_neg (by rw [bounds_guard]; exact not_not_intro h)]
  split_ifs <;> norm_num

theorem set_pixel_in (buf : Buf) (x y : Int) (c : Nat) (h : inBounds x y) :
    set_pixel buf x y c =
      updateByte buf (byteIdx x y) (wrByte (buf (byteIdx x y)) c (2 * pixQuad x y)) := by
  simp only [set_pixel, wrByte, byteIdx, pixQuad,
    PIXEL_TL_SHIFT, PIXEL_TR_SHIFT, PIXEL_BL_SHIFT, PIXEL_BR_SHIFT]
  rw [if_neg (by rw [bounds_guard]; exact not_not_intro h)]
  split_ifs <;> norm_num

theorem set_pixel_out (buf : Buf) (x y : Int) (c : Nat) (h : ¬ inBounds x y) :
    set_pixel buf x y c = buf := by
  unfold set_pixel
  rw [if_pos ((bounds_guard x y).mpr h)]

theorem get_pixel_out (buf : Buf) (x y : Int) (h : ¬ inBounds x y) :
    get_pixel buf x y = 0 := by
  unfold get_pixel
  rw [if_pos ((bounds_guard x y).mpr h)]

/-- Pixel address injectivity: byte index and quadrant determine the
in-bounds coordinates. -/
theorem pix_addr_inj (x y x' y' : Int) (h : inBounds x y) (h' : inBounds x' y')
    (hb : byteIdx x' y' = byteIdx x y) (hq : pixQuad x' y' = pixQuad x y) :
    x' = x ∧ y' = y := by
  unfold inBounds SCREEN_WIDTH SCREEN_HEIGHT at h h'
  unfold byteIdx row_offset CHAR_WIDTH at hb
  unfold pixQuad at hq
  split_ifs at hq <;> omega

/-- Full readback characterization of `set_pixel`. -/
theorem get_set_pixel (buf : Buf) (x y : Int) (c : Nat) (x' y' : Int) :
    get_pixel (set_pixel buf x y c) x' y' =
      if x' = x ∧ y' = y ∧ inBounds x y then c % 4 else get_pixel buf x' y' := by
  by_cases h : inBounds x y
  · rw [set_pixel_in buf x y c h]
    by_cases h' : inBounds x' y'
    · rw [get_pixel_in _ _ _ h', get_pixel_in buf _ _ h']
      unfold updateByte
      by_cases hb : byteIdx x' y' = byteIdx x y
      · rw [if_pos hb, hb,
          rdByte_wrByte _ c (pixQuad x y) (pixQuad x' y') (pixQuad_lt x y) (pixQuad_lt x' y')]
        by_cases hq : pixQuad x' y' = pixQuad x y
        · obtain ⟨hx, hy⟩ := pix_addr_inj x y x' y' h h' hb hq
          rw [if_pos hq, if_pos ⟨hx, hy, h⟩]
        · rw [if_neg hq, if_neg (by
            rintro ⟨hx, hy, -⟩
            exact hq (by rw [hx, hy]))]
      · rw [if_neg hb, if_neg (by
          rintro ⟨hx, hy, -⟩
          exact hb (by rw [hx, hy]))]
    · rw [get_pixel_out _ _ _ h', get_pixel_out buf _ _ h',
        if_neg (by rintro ⟨hx, hy, hin⟩; exact h' (hx ▸ hy ▸ hin))]
  · rw [set_pixel_out buf x y c h, if_neg (by rintro ⟨-, -, hin⟩; exact h hin)]

/-- All-zero buffer, used as a concrete instance in witnesses. -/
def buf0 : Buf := fun _ => 0

/-- C4: for every buffer, in-bounds (x,y) and color c in [0,3],
`set_pixel buf x y c` followed by `get_pixel` at (x,y) returns c, and
every other pixel — including the other quadrants of the same byte —
reads exactly as before. -/
theorem C4_pixel_roundtrip (buf : Buf) (x y : Int) (c : Nat)
    (hx : 0 ≤ x) (hx' : x < 80) (hy : 0 ≤ y) (hy' : y < 50) (hc : c ≤ 3) :
    get_pixel (set_pixel buf x y c) x y = c ∧
    ∀ x' y' : Int, ¬ (x' = x ∧ y' = y) →
      get_pixel (set_pixel buf x y c) x' y' = get_pixel buf x' y' := by
  have hin : inBounds x y := ⟨hx, hx', hy, hy'⟩
  constructor
  · rw [get_set_pixel, if_pos ⟨rfl, rfl, hin⟩, Nat.mod_eq_of_lt (by omega)]
  · intro x' y' hne
    rw [get_set_pixel, if_neg (by rintro ⟨hx1, hy1, -⟩; exact hne ⟨hx1, hy1⟩)]

theorem C4_pixel_roundtrip_witness :
    ((0 : Int) ≤ 5 ∧ (5 : Int) < 80 ∧ (0 : Int) ≤ 7 ∧ (7 : Int) < 50 ∧ (2 : Nat) ≤ 3 ∧
      ¬ ((4 : Int) = 5 ∧ (7 : Int) = 7)) ∧
    get_pixel (set_pixel buf0 5 7 2) 5 7 = 2 ∧
    get_pixel (set_pixel buf0 5 7 2) 4 7 = get_pixel buf0 4 7 :=
  ⟨by decide,
   (C4_pixel_roundtrip buf0 5 7 2 (by decide) (by decide) (by decide) (by decide) (by decide)).1,
   (C4_pixel_roundtrip buf0 5 7 2 (by decide) (by decide) (by decide) (by decide) (by decide)).2
     4 7 (by decide)⟩

/-- C5: for (x,y) outside the 80×50 screen, `set_pixel` is a silent
no-op (the buffer is unchanged byte-for-byte) and `get_pixel` returns 0. -/
theorem C5_out_of_bounds (buf : Buf) (x y : Int) (c : Nat)
    (h : x < 0 ∨ 80 ≤ x ∨ y < 0 ∨ 50 ≤ y) :
    set_pixel buf x y c = buf ∧ get_pixel buf x y = 0 := by
  have hnb : ¬ inBounds x y := by
    rw [← bounds_guard]
    exact h
  exact ⟨set_pixel_out buf x y c hnb, get_pixel_out buf x y hnb⟩

theorem C5_out_of_bounds_witness :
    (((-1 : Int) < 0 ∨ (80 : Int) ≤ -1 ∨ (3 : Int) < 0 ∨ (50 : Int) ≤ 3) ∧
      set_pixel buf0 (-1) 3 2 = buf0 ∧ get_pixel buf0 (-1) 3 = 0) :=
  ⟨by decide, C5_out_of_bounds buf0 (-1) 3 2 (by decide)⟩

/-- C10: for in-bounds (x,y) and any 8-bit color c, `set_pixel` stores
only the low two bits: the buffer is byte-identical to setting `c % 4`,
and reading back yields `c % 4`. -/
theorem C10_color_mod4 (buf : Buf) (x y : Int) (c : Nat)
    (hx : 0 ≤ x) (hx' : x < 80) (hy : 0 ≤ y) (hy' : y < 50) (hc : c < 256) :
    set_pixel buf x y c = set_pixel buf x y (c % 4) ∧
    get_pixel (set_pixel buf x y c) x y = c % 4 := by
  have hin : inBounds x y := ⟨hx, hx', hy, hy'⟩
  constructor
  · rw [set_pixel_in buf x y c hin, set_pixel_in buf x y (c % 4) hin]
    have h6 : 2 * pixQuad x y ≤ 6 := by have := pixQuad_lt x y; omega
    conv_lhs => rw [wrByte_low _ c _ h6]
    conv_rhs => rw [wrByte_low _ (c % 4) _ h6]
    rw [Nat.mod_mod_of_dvd c (dvd_refl 4)]
  · rw [get_set_pixel, if_pos ⟨rfl, rfl, hin⟩]

theorem C10_color_mod4_witness :
    ((0 : Int) ≤ 10 ∧ (10 : Int) < 80 ∧ (0 : Int) ≤ 11 ∧ (11 : Int) < 50 ∧ (199 : Nat) < 256) ∧
    set_pixel buf0 10 11 199 = set_pixel buf0 10 11 (199 % 4) ∧
    get_pixel (set_pixel buf0 10 11 199) 10 11 = 199 % 4 :=
  ⟨by decide,
   C10_color_mod4 buf0 10 11 199 (by decide) (by decide) (by decide) (by decide) (by decide)⟩

/- ### Span blitters (rasterize.c lines 94-224) -/

/-- The `for (char_x = i; char_x < i+n; char_x++) row[char_x] = f(row[char_x])`
loops of the span blitters, as recursion on the trip count. -/
def storeRun (buf : Buf) (i : Int) (n : Nat) (f : Nat → Nat) : Buf :=
  match n with
  | 0 => buf
  | Nat.succ m => storeRun (updateByte buf i (f (buf i))) (i + 1) m f

/-- `unsigned char color_bits` of `draw_span_top`: the color replicated
into both top-row quadrants (8-bit truncation of the C store). -/
def cbTop (c : Nat) : Nat := ((c <<< PIXEL_TL_SHIFT) ||| (c <<< PIXEL_TR_SHIFT)) % 256

/-- `unsigned char color_bits` of `draw_span_bottom`. -/
def cbBot (c : Nat) : Nat := ((c <<< PIXEL_BL_SHIFT) ||| (c <<< PIXEL_BR_SHIFT)) % 256

/-- `unsigned char color_pattern` of `draw_dual_row_simple` (also the
fill byte of `clear_screen`): the color in all four quadrants. -/
def cbAll (c : Nat) : Nat :=
  ((c <<< PIXEL_TL_SHIFT) ||| (c <<< PIXEL_TR_SHIFT) |||
   (c <<< PIXEL_BL_SHIFT) ||| (c <<< PIXEL_BR_SHIFT)) % 256

/-- `draw_span_top` from rasterize.c: fill [xl,xr) on an even row y,
touching only the top nibble of each character byte. -/
def draw_span_top (buf : Buf) (y xl xr : Int) (color : Nat) : Buf :=
  if xl ≥ xr then buf
  else
    let char_y : Int := y / 2
    let base : Int := row_offset char_y
    let mask_left : Nat := PIXEL_TR_MASK
    let mask_right : Nat := PIXEL_TL_MASK
    let mask_full : Nat := PIXEL_TL_MASK ||| PIXEL_TR_MASK
    let color_bits : Nat := cbTop color
    let char_start : Int := xl / 2
    let full_start : Int := (xl + 1) / 2
    let full_end : Int := xr / 2
    let char_end : Int := (xr + 1) / 2
    let buf1 : Buf :=
      if char_start < full_start then
        updateByte buf (base + char_start)
          ((buf (base + char_start) &&& (255 ^^^ mask_left)) ||| (color_bits &&& mask_left))
      else buf
    let buf2 : Buf := storeRun buf1 (base + full_start) (full_end - full_start).toNat
      (fun b => (b &&& (255 ^^^ mask_full)) ||| color_bits)
    if full_end < char_end then
      updateByte buf2 (base + full_end)
        ((buf2 (base + full_end) &&& (255 ^^^ mask_right)) ||| (color_bits &&& mask_right))
    else buf2

/-- `draw_span_bottom` from rasterize.c: fill [xl,xr) on an odd row y,
touching only the bottom nibble of each character byte. -/
def draw_span_bottom (buf : Buf) (y xl xr : Int) (color : Nat) : Buf :=
  if xl ≥ xr then buf
  else
    let char_y : Int := y / 2
    let base : Int := row_offset char_y
    let mask_left : Nat := PIXEL_BR_MASK
    let mask_right : Nat := PIXEL_BL_MASK
    let mask_full : Nat := PIXEL_BL_MASK ||| PIXEL_BR_MASK
    let color_bits : Nat := cbBot color
    let char_start : Int := xl / 2
    let full_start : Int := (xl + 1) / 2
    let full_end : Int := xr / 2
    let char_end : Int := (xr + 1) / 2
    let buf1 : Buf :=
      if char_start < full_start then
        updateByte buf (base + char_start)
          ((buf (base + char_start) &&& (255 ^^^ mask_left)) ||| (color_bits &&& mask_left))
      else buf
    let buf2 : Buf := storeRun buf1 (base + full_start) (full_end - full_start).toNat
      (fun b => (b &&& (255 ^^^ mask_full)) ||| color_bits)
    if full_end < char_end then
      updateByte buf2 (base + full_end)
        ((buf2 (base + full_end) &&& (255 ^^^ mask_right)) ||| (color_bits &&& mask_right))
    else buf2

/-- `draw_dual_row_simple` from rasterize.c: identical interval [xl,xr)
on both rows y (even) and y+1; full characters are stored unmasked. -/
def draw_dual_row_simple (buf : Buf) (y xl xr : Int) (color : Nat) : Buf :=
  if xl ≥ xr then buf
  else
    let char_y : Int := y / 2
    let base : Int := row_offset char_y
    let color_pattern : Nat := cbAll color
    let char_start : Int := xl / 2
    let char_end : Int := (xr + 1) / 2
    let full_start : Int := (xl + 1) / 2
    let full_end : Int := xr / 2
    let buf1 : Buf :=
      if char_start < full_start then
        let mask := top_row_mask 1 ||| bottom_row_mask 1
        updateByte buf (base + char_start)
          ((buf (base + char_start) &&& (255 ^^^ mask)) ||| (color_pattern &&& mask))
      else buf
    let buf2 : Buf := storeRun buf1 (base + full_start) (full_end - full_start).toNat
      (fun _ => color_pattern)
    if full_end < char_end then
      let mask := top_row_mask 2 ||| bottom_row_mask 2
      updateByte buf2 (base + full_end)
        ((buf2 (base + full_end) &&& (255 ^^^ mask)) ||| (color_pattern &&& mask))
    else buf2

/-- `draw_dual_row_intervals` from rasterize.c: the interval-overlap
decision tree over the two rows' half-open intervals. -/
def draw_dual_row_intervals (buf : Buf) (y xl1 xr1 xl2 xr2 : Int) (color : Nat) : Buf :=
  if xl1 ≥ xr1 ∧ xl2 ≥ xr2 then buf
  else if xl1 ≥ xr1 then draw_span_bottom buf (y + 1) xl2 xr2 color
  else if xl2 ≥ xr2 then draw_span_top buf y xl1 xr1 color
  else if xl1 ≤ xl2 then
    if xr2 ≤ xr1 then
      -- CASE 1: row 2 inside row 1
      let buf := draw_span_top buf y xl1 xl2 color
      let buf := draw_dual_row_simple buf y xl2 xr2 color
      draw_span_top buf y xr2 xr1 color
    else if xl2 ≤ xr1 then
      -- CASE 2.1: overlapping
      let buf := draw_span_top buf y xl1 xl2 color
      let buf := draw_dual_row_simple buf y xl2 xr1 color
      draw_span_bottom buf (y + 1) xr1 xr2 color
    else
      -- CASE 2.2: disjoint
      let buf := draw_span_top buf y xl1 xr1 color
      draw_span_bottom buf (y + 1) xl2 xr2 color
  else
    if xr1 < xr2 then
      -- CASE 4: row 1 inside row 2
      let buf := draw_span_bottom buf (y + 1) xl2 xl1 color
      let buf := draw_dual_row_simple buf y xl1 xr1 color
      draw_span_bottom buf (y + 1) xr1 xr2 color
    else if xl1 ≤ xr2 then
      -- CASE 3.1: overlapping
      let buf := draw_span_bottom buf (y + 1) xl2 xl1 color
      let buf := draw_dual_row_simple buf y xl1 xr2 color
      draw_span_top buf y xr2 xr1 color
    else
      -- CASE 3.2: disjoint
      let buf := draw_span_bottom buf (y + 1) xl2 xr2 color
      draw_span_top buf y xl1 xr1 color

/-- The reference semantics: `for (x = xl; x < xr; x++) set_pixel(buf,x,y,color)`
(the per-pixel loop of the scanline tests and of `reference_triangle`). -/
def set_pixel_run (buf : Buf) (y xl xr : Int) (color : Nat) : Buf :=
  if h : xl < xr then set_pixel_run (set_pixel buf xl y color) y (xl + 1) xr color
  else buf
termination_by (xr - xl).toNat
decreasing_by
  omega

/- ### Readback characterizations of the blitters -/

theorem get_updateByte (buf : Buf) (j : Int) (v : Nat) (x' y' : Int) :
    get_pixel (updateByte buf j v) x' y' =
      if inBounds x' y' ∧ byteIdx x' y' = j then rdByte v (2 * pixQuad x' y')
      else get_pixel buf x' y' := by
  by_cases h : inBounds x' y'
  · rw [get_pixel_in _ _ _ h, get_pixel_in buf _ _ h]
    unfold updateByte
    by_cases hj : byteIdx x' y' = j
    · simp [hj, h]
    · simp [hj, h]
  · rw [get_pixel_out _ _ _ h, get_pixel_out buf _ _ h, if_neg (by rintro ⟨hin, -⟩; exact h hin)]

/- Byte-level readback facts for every masked store shape used by the
span blitters, checked exhaustively on 8-bit bytes and 2-bit colors.
The quadrant written reads back the color; the others read the old byte. -/

theorem core_top_left : ∀ b < 256, ∀ c < 4, ∀ k' < 4,
    rdByte ((b &&& (255 ^^^ PIXEL_TR_MASK)) ||| (cbTop c &&& PIXEL_TR_MASK)) (2 * k') =
      if k' = 2 then c else rdByte b (2 * k') := by decide

theorem core_top_right : ∀ b < 256, ∀ c < 4, ∀ k' < 4,
    rdByte ((b &&& (255 ^^^ PIXEL_TL_MASK)) ||| (cbTop c &&& PIXEL_TL_MASK)) (2 * k') =
      if k' = 3 then c else rdByte b (2 * k') := by decide

theorem core_top_full : ∀ b < 256, ∀ c < 4, ∀ k' < 4,
    rdByte ((b &&& (255 ^^^ (PIXEL_TL_MASK ||| PIXEL_TR_MASK))) ||| cbTop c) (2 * k') =
      if k' = 2 ∨ k' = 3 then c else rdByte b (2 * k') := by decide

theorem core_bot_left : ∀ b < 256, ∀ c < 4, ∀ k' < 4,
    rdByte ((b &&& (255 ^^^ PIXEL_BR_MASK)) ||| (cbBot c &&& PIXEL_BR_MASK)) (2 * k') =
      if k' = 0 then c else rdByte b (2 * k') := by decide

theorem core_bot_right : ∀ b < 256, ∀ c < 4, ∀ k' < 4,
    rdByte ((b &&& (255 ^^^ PIXEL_BL_MASK)) ||| (cbBot c &&& PIXEL_BL_MASK)) (2 * k') =
      if k' = 1 then c else rdByte b (2 * k') := by decide

theorem core_bot_full : ∀ b < 256, ∀ c < 4, ∀ k' < 4,
    rdByte ((b &&& (255 ^^^ (PIXEL_BL_MASK ||| PIXEL_BR_MASK))) ||| cbBot c) (2 * k') =
      if k' = 0 ∨ k' = 1 then c else rdByte b (2 * k') := by decide

theorem core_dual_left : ∀ b < 256, ∀ c < 4, ∀ k' < 4,
    rdByte ((b &&& (255 ^^^ (top_row_mask 1 ||| bottom_row_mask 1))) |||
        (cbAll c &&& (top_row_mask 1 ||| bottom_row_mask 1))) (2 * k') =
      if k' = 0 ∨ k' = 2 then c else rdByte b (2 * k') := by decide

theorem core_dual_right : ∀ b < 256, ∀ c < 4, ∀ k' < 4,
    rdByte ((b &&& (255 ^^^ (top_row_mask 2 ||| bottom_row_mask 2))) |||
        (cbAll c &&& (top_row_mask 2 ||| bottom_row_mask 2))) (2 * k') =
      if k' = 1 ∨ k' = 3 then c else rdByte b (2 * k') := by decide

theorem core_dual_full : ∀ c < 4, ∀ k' < 4, rdByte (cbAll c) (2 * k') = c := by decide

/-- Lift a byte-core readback fact from 8-bit bytes to arbitrary cell
values (a masked store only depends on the low 8 bits). -/
theorem lift_shape (M W : Nat) (hM : M < 256) (c : Nat) (P : Nat → Prop) [DecidablePred P]
    (hcore : ∀ b' < 256, ∀ k' < 4,
      rdByte ((b' &&& (255 ^^^ M)) ||| W) (2 * k') = if P k' then c else rdByte b' (2 * k')) :
    ∀ b : Nat, ∀ k' < 4,
      rdByte ((b &&& (255 ^^^ M)) ||| W) (2 * k') = if P k' then c else rdByte b (2 * k') := by
  intro b k' hk'
  have hxor : 255 ^^^ M < 256 := by
    have h := Nat.xor_lt_two_pow (x := 255) (y := M) (n := 8) (by norm_num)
      (by rw [show (2 : Nat) ^ 8 = 256 by norm_num]; exact hM)
    rwa [show (2 : Nat) ^ 8 = 256 by norm_num] at h
  rw [and_low b _ hxor, rdByte_low b _ (by omega)]
  exact hcore (b % 256) (Nat.mod_lt _ (by norm_num)) k' hk'

/-- Readback of the full-character store loop: pixels whose byte lies in
the written window and whose quadrant satisfies `P` read `c`; everything
else is untouched. -/
theorem get_storeRun (f : Nat → Nat) (P : Nat → Prop) [DecidablePred P] (c : Nat)
    (hf : ∀ b : Nat, ∀ k' < 4, rdByte (f b) (2 * k') = if P k' then c else rdByte b (2 * k')) :
    ∀ (n : Nat) (buf : Buf) (i : Int) (x' y' : Int),
      get_pixel (storeRun buf i n f) x' y' =
        if inBounds x' y' ∧ i ≤ byteIdx x' y' ∧ byteIdx x' y' < i + n ∧ P (pixQuad x' y')
        then c else get_pixel buf x' y' := by
  intro n
  induction n with
  | zero =>
    intro buf i x' y'
    simp only [storeRun]
    rw [if_neg (by rintro ⟨-, h1, h2, -⟩; omega)]
  | succ m ih =>
    intro buf i x' y'
    simp only [storeRun]
    rw [ih, get_updateByte]
    by_cases hin : inBounds x' y'
    · by_cases hw : i + 1 ≤ byteIdx x' y' ∧ byteIdx x' y' < i + 1 + m ∧ P (pixQuad x' y')
      · rw [if_pos ⟨hin, hw.1, hw.2.1, hw.2.2⟩, if_pos ⟨hin, by omega, by omega, hw.2.2⟩]
      · rw [if_neg (by rintro ⟨-, h1, h2, h3⟩; exact hw ⟨h1, h2, h3⟩)]
        by_cases hj : byteIdx x' y' = i
        · rw [if_pos ⟨hin, hj⟩, hf _ _ (pixQuad_lt x' y')]
          by_cases hP : P (pixQuad x' y')
          · rw [if_pos hP, if_pos ⟨hin, by omega, by omega, hP⟩]
          · rw [if_neg hP, if_neg (by rintro ⟨-, -, -, h3⟩; exact hP h3),
              get_pixel_in buf _ _ hin, hj]
        · rw [if_neg (by rintro ⟨-, hj'⟩; exact hj hj'),
            if_neg (by rintro ⟨-, h1, h2, h3⟩; exact hw ⟨by omega, by omega, h3⟩)]
    · rw [if_neg (by rintro ⟨h, -⟩; exact hin h), if_neg (by rintro ⟨h, -⟩; exact hin h),
        if_neg (by rintro ⟨h, -⟩; exact hin h)]

theorem hf_top_left (c : Nat) (hc : c ≤ 3) : ∀ b : Nat, ∀ k' < 4,
    rdByte ((b &&& (255 ^^^ PIXEL_TR_MASK)) ||| (cbTop c &&& PIXEL_TR_MASK)) (2 * k') =
      if k' = 2 then c else rdByte b (2 * k') :=
  lift_shape PIXEL_TR_MASK _ (by decide) c _
    (fun b' hb' k' hk' => core_top_left b' hb' c (by omega) k' hk')

theorem hf_top_right (c : Nat) (hc : c ≤ 3) : ∀ b : Nat, ∀ k' < 4,
    rdByte ((b &&& (255 ^^^ PIXEL_TL_MASK)) ||| (cbTop c &&& PIXEL_TL_MASK)) (2 * k') =
      if k' = 3 then c else rdByte b (2 * k') :=
  lift_shape PIXEL_TL_MASK _ (by decide) c _
    (fun b' hb' k' hk' => core_top_right b' hb' c (by omega) k' hk')

theorem hf_top_full (c : Nat) (hc : c ≤ 3) : ∀ b : Nat, ∀ k' < 4,
    rdByte ((b &&& (255 ^^^ (PIXEL_TL_MASK ||| PIXEL_TR_MASK))) ||| cbTop c) (2 * k') =
      if k' = 2 ∨ k' = 3 then c else rdByte b (2 * k') :=
  lift_shape (PIXEL_TL_MASK ||| PIXEL_TR_MASK) _ (by decide) c _
    (fun b' hb' k' hk' => core_top_full b' hb' c (by omega) k' hk')

theorem hf_bot_left (c : Nat) (hc : c ≤ 3) : ∀ b : Nat, ∀ k' < 4,
    rdByte ((b &&& (255 ^^^ PIXEL_BR_MASK)) ||| (cbBot c &&& PIXEL_BR_MASK)) (2 * k') =
      if k' = 0 then c else rdByte b (2 * k') :=
  lift_shape PIXEL_BR_MASK _ (by decide) c _
    (fun b' hb' k' hk' => core_bot_left b' hb' c (by omega) k' hk')

theorem hf_bot_right (c : Nat) (hc : c ≤ 3) : ∀ b : Nat, ∀ k' < 4,
    rdByte ((b &&& (255 ^^^ PIXEL_BL_MASK)) ||| (cbBot c &&& PIXEL_BL_MASK)) (2 * k') =
      if k' = 1 then c else rdByte b (2 * k') :=
  lift_shape PIXEL_BL_MASK _ (by decide) c _
    (fun b' hb' k' hk' => core_bot_right b' hb' c (by omega) k' hk')

theorem hf_bot_full (c : Nat) (hc : c ≤ 3) : ∀ b : Nat, ∀ k' < 4,
    rdByte ((b &&& (255 ^^^ (PIXEL_BL_MASK ||| PIXEL_BR_MASK))) ||| cbBot c) (2 * k') =
      if k' = 0 ∨ k' = 1 then c else rdByte b (2 * k') :=
  lift_shape (PIXEL_BL_MASK ||| PIXEL_BR_MASK) _ (by decide) c _
    (fun b' hb' k' hk' => core_bot_full b' hb' c (by omega) k' hk')

theorem hf_dual_left (c : Nat) (hc : c ≤ 3) : ∀ b : Nat, ∀ k' < 4,
    rdByte ((b &&& (255 ^^^ (top_row_mask 1 ||| bottom_row_mask 1))) |||
        (cbAll c &&& (top_row_mask 1 ||| bottom_row_mask 1))) (2 * k') =
      if k' = 0 ∨ k' = 2 then c else rdByte b (2 * k') :=
  lift_shape (top_row_mask 1 ||| bottom_row_mask 1) _ (by decide) c _
    (fun b' hb' k' hk' => core_dual_left b' hb' c (by omega) k' hk')

theorem hf_dual_right (c : Nat) (hc : c ≤ 3) : ∀ b : Nat, ∀ k' < 4,
    rdByte ((b &&& (255 ^^^ (top_row_mask 2 ||| bottom_row_mask 2))) |||
        (cbAll c &&& (top_row_mask 2 ||| bottom_row_mask 2))) (2 * k') =
      if k' = 1 ∨ k' = 3 then c else rdByte b (2 * k') :=
  lift_shape (top_row_mask 2 ||| bottom_row_mask 2) _ (by decide) c _
    (fun b' hb' k' hk' => core_dual_right b' hb' c (by omega) k' hk')

theorem hf_dual_full (c : Nat) (hc : c ≤ 3) : ∀ b : Nat, ∀ k' < 4,
    rdByte ((fun (_ : Nat) => cbAll c) b) (2 * k') =
      if True then c else rdByte b (2 * k') := by
  intro b k' hk'
  rw [if_pos trivial]
  exact core_dual_full c (by omega) k' hk'

/-- Readback of a masked store of one character byte. -/
theorem get_maskedByte (M W : Nat) (c : Nat) (P : Nat → Prop) [DecidablePred P]
    (hP : ∀ b : Nat, ∀ k' < 4,
      rdByte ((b &&& (255 ^^^ M)) ||| W) (2 * k') = if P k' then c else rdByte b (2 * k'))
    (buf : Buf) (t : Int) (x' y' : Int) :
    get_pixel (updateByte buf t ((buf t &&& (255 ^^^ M)) ||| W)) x' y' =
      if inBounds x' y' ∧ byteIdx x' y' = t ∧ P (pixQuad x' y') then c
      else get_pixel buf x' y' := by
  rw [get_updateByte]
  by_cases h1 : inBounds x' y' ∧ byteIdx x' y' = t
  · rw [if_pos h1, hP _ _ (pixQuad_lt x' y')]
    by_cases h2 : P (pixQuad x' y')
    · rw [if_pos h2, if_pos ⟨h1.1, h1.2, h2⟩]
    · rw [if_neg h2, if_neg (by tauto), get_pixel_in buf _ _ h1.1, h1.2]
  · rw [if_neg h1, if_neg (by tauto)]

/-- `pixQuad` as a linear expression in the coordinate parities. -/
theorem pixQuad_arith (x y : Int) :
    (pixQuad x y : Int) = 2 * (1 - y % 2) + (1 - x % 2) := by
  unfold pixQuad
  split_ifs <;> omega

theorem ite_chain1 {A D : Prop} [Decidable A] [Decidable D] (h : A ↔ D) (c g : Nat) :
    (if A then c else g) = if D then c else g := by
  split_ifs <;> tauto

theorem ite_chain2 {A B D : Prop} [Decidable A] [Decidable B] [Decidable D]
    (h : A ∨ B ↔ D) (c g : Nat) :
    (if A then c else if B then c else g) = if D then c else g := by
  split_ifs <;> tauto

theorem ite_chain3 {A B C D : Prop} [Decidable A] [Decidable B] [Decidable C] [Decidable D]
    (h : A ∨ B ∨ C ↔ D) (c g : Nat) :
    (if A then c else if B then c else if C then c else g) = if D then c else g := by
  split_ifs <;> tauto

/-- Readback of `draw_span_top`: exactly the pixels of row y (even) in
[xl,xr) read back the color. -/
theorem get_draw_span_top (buf : Buf) (y xl xr : Int) (c : Nat) (x' y' : Int)
    (hy0 : 0 ≤ y) (hy1 : y < 50) (hye : y % 2 = 0)
    (hxl : 0 ≤ xl) (hxr : xr ≤ 80) (hc : c ≤ 3) :
    get_pixel (draw_span_top buf y xl xr c) x' y' =
      if xl ≤ x' ∧ x' < xr ∧ y' = y ∧ inBounds x' y' then c
      else get_pixel buf x' y' := by
  by_cases he : xl ≥ xr
  · simp only [draw_span_top, if_pos he]
    rw [if_neg (by rintro ⟨h1, h2, -⟩; omega)]
  · simp only [draw_span_top, if_neg he]
    by_cases hr : xr / 2 < (xr + 1) / 2 <;> by_cases hl : xl / 2 < (xl + 1) / 2 <;>
      simp only [hr, hl, if_true, if_false] <;>
      (first
        | rw [get_maskedByte PIXEL_TL_MASK (cbTop c &&& PIXEL_TL_MASK) c _ (hf_top_right c hc),
            get_storeRun _ _ c (hf_top_full c hc),
            get_maskedByte PIXEL_TR_MASK (cbTop c &&& PIXEL_TR_MASK) c _ (hf_top_left c hc)]
        | rw [get_maskedByte PIXEL_TL_MASK (cbTop c &&& PIXEL_TL_MASK) c _ (hf_top_right c hc),
            get_storeRun _ _ c (hf_top_full c hc)]
        | rw [get_storeRun _ _ c (hf_top_full c hc),
            get_maskedByte PIXEL_TR_MASK (cbTop c &&& PIXEL_TR_MASK) c _ (hf_top_left c hc)]
        | rw [get_storeRun _ _ c (hf_top_full c hc)]) <;>
      (first | apply ite_chain3 | apply ite_chain2 | apply ite_chain1) <;>
      (have hq := pixQuad_arith x' y'
       simp only [inBounds, byteIdx, row_offset, CHAR_WIDTH, SCREEN_WIDTH, SCREEN_HEIGHT,
         and_true, true_and]
       omega)

/-- Readback of `draw_span_bottom`: exactly the pixels of row y (odd) in
[xl,xr) read back the color. -/
theorem get_draw_span_bottom (buf : Buf) (y xl xr : Int) (c : Nat) (x' y' : Int)
    (hy0 : 0 ≤ y) (hy1 : y < 50) (hyo : y % 2 = 1)
    (hxl : 0 ≤ xl) (hxr : xr ≤ 80) (hc : c ≤ 3) :
    get_pixel (draw_span_bottom buf y xl xr c) x' y' =
      if xl ≤ x' ∧ x' < xr ∧ y' = y ∧ inBounds x' y' then c
      else get_pixel buf x' y' := by
  by_cases he : xl ≥ xr
  · simp only [draw_span_bottom, if_pos he]
    rw [if_neg (by rintro ⟨h1, h2, -⟩; omega)]
  · simp only [draw_span_bottom, if_neg he]
    by_cases hr : xr / 2 < (xr + 1) / 2 <;> by_cases hl : xl / 2 < (xl + 1) / 2 <;>
      simp only [hr, hl, if_true, if_false] <;>
      (first
        | rw [get_maskedByte PIXEL_BL_MASK (cbBot c &&& PIXEL_BL_MASK) c _ (hf_bot_right c hc),
            get_storeRun _ _ c (hf_bot_full c hc),
            get_maskedByte PIXEL_BR_MASK (cbBot c &&& PIXEL_BR_MASK) c _ (hf_bot_left c hc)]
        | rw [get_maskedByte PIXEL_BL_MASK (cbBot c &&& PIXEL_BL_MASK) c _ (hf_bot_right c hc),
            get_storeRun _ _ c (hf_bot_full c hc)]
        | rw [get_storeRun _ _ c (hf_bot_full c hc),
            get_maskedByte PIXEL_BR_MASK (cbBot c &&& PIXEL_BR_MASK) c _ (hf_bot_left c hc)]
        | rw [get_storeRun _ _ c (hf_bot_full c hc)]) <;>
      (first | apply ite_chain3 | apply ite_chain2 | apply ite_chain1) <;>
      (have hq := pixQuad_arith x' y'
       simp only [inBounds, byteIdx, row_offset, CHAR_WIDTH, SCREEN_WIDTH, SCREEN_HEIGHT,
         and_true, true_and]
       omega)

/-- Readback of `draw_dual_row_simple`: exactly the pixels of rows y
(even) and y+1 in [xl,xr) read back the color. -/
theorem get_draw_dual_row_simple (buf : Buf) (y xl xr : Int) (c : Nat) (x' y' : Int)
    (hy0 : 0 ≤ y) (hy1 : y + 1 < 50) (hye : y % 2 = 0)
    (hxl : 0 ≤ xl) (hxr : xr ≤ 80) (hc : c ≤ 3) :
    get_pixel (draw_dual_row_simple buf y xl xr c) x' y' =
      if xl ≤ x' ∧ x' < xr ∧ (y' = y ∨ y' = y + 1) ∧ inBounds x' y' then c
      else get_pixel buf x' y' := by
  by_cases he : xl ≥ xr
  · simp only [draw_dual_row_simple, if_pos he]
    rw [if_neg (by rintro ⟨h1, h2, -⟩; omega)]
  · simp only [draw_dual_row_simple, if_neg he]
    by_cases hr : xr / 2 < (xr + 1) / 2 <;> by_cases hl : xl / 2 < (xl + 1) / 2 <;>
      simp only [hr, hl, if_true, if_false] <;>
      (first
        | rw [get_maskedByte (top_row_mask 2 ||| bottom_row_mask 2)
              (cbAll c &&& (top_row_mask 2 ||| bottom_row_mask 2)) c _ (hf_dual_right c hc),
            get_storeRun _ _ c (hf_dual_full c hc),
            get_maskedByte (top_row_mask 1 ||| bottom_row_mask 1)
              (cbAll c &&& (top_row_mask 1 ||| bottom_row_mask 1)) c _ (hf_dual_left c hc)]
        | rw [get_maskedByte (top_row_mask 2 ||| bottom_row_mask 2)
              (cbAll c &&& (top_row_mask 2 ||| bottom_row_mask 2)) c _ (hf_dual_right c hc),
            get_storeRun _ _ c (hf_dual_full c hc)]
        | rw [get_storeRun _ _ c (hf_dual_full c hc),
            get_maskedByte (top_row_mask 1 ||| bottom_row_mask 1)
              (cbAll c &&& (top_row_mask 1 ||| bottom_row_mask 1)) c _ (hf_dual_left c hc)]
        | rw [get_storeRun _ _ c (hf_dual_full c hc)]) <;>
      (first | apply ite_chain3 | apply ite_chain2 | apply ite_chain1) <;>
      (have hq := pixQuad_arith x' y'
       simp only [inBounds, byteIdx, row_offset, CHAR_WIDTH, SCREEN_WIDTH, SCREEN_HEIGHT,
         and_true, true_and]
       omega)

theorem get_set_pixel_run (buf : Buf) (y xl xr : Int) (c : Nat) (x' y' : Int) :
    get_pixel (set_pixel_run buf y xl xr c) x' y' =
      if xl ≤ x' ∧ x' < xr ∧ y' = y ∧ inBounds x' y' then c % 4
      else get_pixel buf x' y' := by
  by_cases h : xl < xr
  · rw [set_pixel_run, dif_pos h, get_set_pixel_run (set_pixel buf xl y c) y (xl + 1) xr c,
      get_set_pixel]
    by_cases h1 : xl + 1 ≤ x' ∧ x' < xr ∧ y' = y ∧ inBounds x' y'
    · rw [if_pos h1, if_pos ⟨by omega, h1.2⟩]
    · rw [if_neg h1]
      by_cases h2 : x' = xl ∧ y' = y ∧ inBounds xl y
      · rw [if_pos h2, if_pos ⟨le_of_eq h2.1.symm, by omega, h2.2.1, h2.1 ▸ h2.2.1 ▸ h2.2.2⟩]
      · rw [if_neg h2, if_neg (by
          rintro ⟨ha, hb, hc', hd⟩
          rcases eq_or_lt_of_le ha with he | he
          · exact h2 ⟨he.symm, hc', he ▸ hc' ▸ hd⟩
          · exact h1 ⟨by omega, hb, hc', hd⟩)]
  · rw [set_pixel_run, dif_neg h, if_neg (by rintro ⟨h1, h2, -⟩; omega)]
termination_by (xr - xl).toNat
decreasing_by
  omega

theorem ite_merge {D1 D2 : Prop} [Decidable D1] [Decidable D2] (c g : Nat) :
    (if D1 then c else if D2 then c else g) = if D1 ∨ D2 then c else g := by
  split_ifs <;> tauto

/-- Shared helper: the dual-row interval blitter is pixel-identical to
the per-pixel `set_pixel` loops over the two rows' intervals. -/
theorem dual_blitter_pixEq (buf : Buf) (y xl1 xr1 xl2 xr2 : Int) (c : Nat)
    (hy0 : 0 ≤ y) (hy1 : y + 1 < 50) (hye : y % 2 = 0) (hc : c ≤ 3)
    (h1l : 0 ≤ xl1) (h1r : xr1 ≤ 80) (h2l : 0 ≤ xl2) (h2r : xr2 ≤ 80) :
    pixEq (draw_dual_row_intervals buf y xl1 xr1 xl2 xr2 c)
      (set_pixel_run (set_pixel_run buf y xl1 xr1 c) (y + 1) xl2 xr2 c) := by
  intro x' y'
  have hc4 : c % 4 = c := Nat.mod_eq_of_lt (by omega)
  unfold draw_dual_row_intervals
  split_ifs <;> rw [get_set_pixel_run, get_set_pixel_run, hc4]
  -- both rows empty
  · rw [if_neg (by rintro ⟨h1, h2, -⟩; omega), if_neg (by rintro ⟨h1, h2, -⟩; omega)]
  -- only row 2
  · rw [get_draw_span_bottom _ (y + 1) xl2 xr2 c x' y'
      (by omega) (by omega) (by omega) h2l h2r hc]
    simp only [ite_merge]
    apply ite_chain1
    simp only [inBounds, SCREEN_WIDTH, SCREEN_HEIGHT]
    omega
  -- only row 1
  · rw [get_draw_span_top _ y xl1 xr1 c x' y' hy0 (by omega) hye h1l h1r hc]
    simp only [ite_merge]
    apply ite_chain1
    simp only [inBounds, SCREEN_WIDTH, SCREEN_HEIGHT]
    omega
  -- CASE 1: row 2 nested inside row 1
  · rw [get_draw_span_top _ y xr2 xr1 c x' y' hy0 (by omega) hye (by omega) (by omega) hc,
      get_draw_dual_row_simple _ y xl2 xr2 c x' y' hy0 hy1 hye (by omega) (by omega) hc,
      get_draw_span_top _ y xl1 xl2 c x' y' hy0 (by omega) hye (by omega) (by omega) hc]
    simp only [ite_merge]
    apply ite_chain1
    simp only [inBounds, SCREEN_WIDTH, SCREEN_HEIGHT]
    omega
  -- CASE 2.1: overlapping, row 1 starts first
  · rw [get_draw_span_bottom _ (y + 1) xr1 xr2 c x' y'
        (by omega) (by omega) (by omega) (by omega) (by omega) hc,
      get_draw_dual_row_simple _ y xl2 xr1 c x' y' hy0 hy1 hye (by omega) (by omega) hc,
      get_draw_span_top _ y xl1 xl2 c x' y' hy0 (by omega) hye (by omega) (by omega) hc]
    simp only [ite_merge]
    apply ite_chain1
    simp only [inBounds, SCREEN_WIDTH, SCREEN_HEIGHT]
    omega
  -- CASE 2.2: disjoint, row 1 first (the two sides coincide literally)
  · rw [get_draw_span_bottom _ (y + 1) xl2 xr2 c x' y'
        (by omega) (by omega) (by omega) (by omega) (by omega) hc,
      get_draw_span_top _ y xl1 xr1 c x' y' hy0 (by omega) hye (by omega) (by omega) hc]
  -- CASE 4: row 1 nested inside row 2
  · rw [get_draw_span_bottom _ (y + 1) xr1 xr2 c x' y'
        (by omega) (by omega) (by omega) (by omega) (by omega) hc,
      get_draw_dual_row_simple _ y xl1 xr1 c x' y' hy0 hy1 hye (by omega) (by omega) hc,
      get_draw_span_bottom _ (y + 1) xl2 xl1 c x' y'
        (by omega) (by omega) (by omega) (by omega) (by omega) hc]
    simp only [ite_merge]
    apply ite_chain1
    simp only [inBounds, SCREEN_WIDTH, SCREEN_HEIGHT]
    omega
  -- CASE 3.1: overlapping, row 2 starts first
  · rw [get_draw_span_top _ y xr2 xr1 c x' y' hy0 (by omega) hye (by omega) (by omega) hc,
      get_draw_dual_row_simple _ y xl1 xr2 c x' y' hy0 hy1 hye (by omega) (by omega) hc,
      get_draw_span_bottom _ (y + 1) xl2 xl1 c x' y'
        (by omega) (by omega) (by omega) (by omega) (by omega) hc]
    simp only [ite_merge]
    apply ite_chain1
    simp only [inBounds, SCREEN_WIDTH, SCREEN_HEIGHT]
    omega
  -- CASE 3.2: disjoint, row 2 first
  · rw [get_draw_span_top _ y xl1 xr1 c x' y' hy0 (by omega) hye (by omega) (by omega) hc,
      get_draw_span_bottom _ (y + 1) xl2 xr2 c x' y'
        (by omega) (by omega) (by omega) (by omega) (by omega) hc]
    simp only [ite_merge]
    apply ite_chain1
    simp only [inBounds, SCREEN_WIDTH, SCREEN_HEIGHT]
    omega

/-- C1: on two adjacent rows y (even) and y+1, with half-open intervals
inside the screen and color in [0,3], `draw_dual_row_intervals` is
pixel-for-pixel identical to calling `set_pixel` for every x in [xl1,xr1)
on row y and every x in [xl2,xr2) on row y+1 — in all nested,
overlapping, disjoint and empty configurations. -/
theorem C1_dual_row_blitter_equiv (buf : Buf) (y xl1 xr1 xl2 xr2 : Int) (c : Nat)
    (hy0 : 0 ≤ y) (hy1 : y + 1 < 50) (hye : y % 2 = 0) (hc : c ≤ 3)
    (h1l : 0 ≤ xl1) (h1r : xr1 ≤ 80) (h2l : 0 ≤ xl2) (h2r : xr2 ≤ 80) :
    pixEq (draw_dual_row_intervals buf y xl1 xr1 xl2 xr2 c)
      (set_pixel_run (set_pixel_run buf y xl1 xr1 c) (y + 1) xl2 xr2 c) :=
  dual_blitter_pixEq buf y xl1 xr1 xl2 xr2 c hy0 hy1 hye hc h1l h1r h2l h2r

theorem C1_dual_row_blitter_equiv_witness :
    ((0 : Int) ≤ 20 ∧ (20 : Int) + 1 < 50 ∧ (20 : Int) % 2 = 0 ∧ (2 : Nat) ≤ 3 ∧
      (0 : Int) ≤ 10 ∧ (31 : Int) ≤ 80 ∧ (0 : Int) ≤ 15 ∧ (36 : Int) ≤ 80) ∧
    get_pixel (draw_dual_row_intervals buf0 20 10 31 15 36 2) 16 20 =
      get_pixel (set_pixel_run (set_pixel_run buf0 20 10 31 2) 21 15 36 2) 16 20 :=
  ⟨by decide,
   C1_dual_row_blitter_equiv buf0 20 10 31 15 36 2 (by decide) (by decide) (by decide)
     (by decide) (by decide) (by decide) (by decide) (by decide) 16 20⟩

/- ### Triangle rasterizer (rasterize.c lines 306-442)
C `int` division truncates toward zero: `Int.tdiv`.  The arithmetic
right shifts `>> 8` and `>> 1` on possibly negative fixed-point values
are floor divisions (`/ 256`, `/ 2`); `<< 8` and `<< 1` are `* 256`,
`* 2`.  The C vertex name `by` is spelled `byy` (a Lean keyword). -/

/-- The y-sort of `draw_triangle`: three conditional pairwise swaps with
a swap counter.  Returns (ax, ay, bx, by, cx, cy, swaps). -/
def sortTri (ax ay bx byy cx cy : Int) : Int × Int × Int × Int × Int × Int × Nat :=
  let (ax, ay, bx, byy, s1) :=
    if ay > byy then (bx, byy, ax, ay, 1) else (ax, ay, bx, byy, 0)
  let (bx, byy, cx, cy, s2) :=
    if byy > cy then (cx, cy, bx, byy, s1 + 1) else (bx, byy, cx, cy, s1)
  let (ax, ay, bx, byy, s3) :=
    if ay > byy then (bx, byy, ax, ay, s2 + 1) else (ax, ay, bx, byy, s2)
  (ax, ay, bx, byy, cx, cy, s3)

/-- The scanline loop body shared by the two trapezoid `while` loops of
`draw_triangle` (they are textually identical up to the short edge's
slope and the upper bound).  Returns the buffer and the final
(y, x_long, x_short) accumulator state. -/
def scanHalf (buf : Buf) (y yEnd x_long x_short dx_long dx_short : Int)
    (b_on_left : Bool) (color : Nat) : Buf × Int × Int × Int :=
  if h : y < yEnd then
    let y_next := y + 1
    let xl0 := (if b_on_left then x_short else x_long) / 256
    let xr0 := (if b_on_left then x_long else x_short) / 256
    let (xl, xr) := if xl0 > xr0 then (xr0, xl0) else (xl0, xr0)
    if y % 2 = 0 ∧ y_next < yEnd then
      let x_long2 := x_long + dx_long
      let x_short2 := x_short + dx_short
      let xl2' := (if b_on_left then x_short2 else x_long2) / 256
      let xr2' := (if b_on_left then x_long2 else x_short2) / 256
      let (xl2, xr2) := if xl2' > xr2' then (xr2', xl2') else (xl2', xr2')
      scanHalf (draw_dual_row_intervals buf y xl xr xl2 xr2 color) (y + 2) yEnd
        (x_long + 2 * dx_long) (x_short + 2 * dx_short) dx_long dx_short b_on_left color
    else if y % 2 = 0 ∧ y_next ≥ yEnd then
      scanHalf (draw_span_top buf y xl xr color) (y + 1) yEnd
        (x_long + dx_long) (x_short + dx_short) dx_long dx_short b_on_left color
    else
      scanHalf (draw_span_bottom buf y xl xr color) (y + 1) yEnd
        (x_long + dx_long) (x_short + dx_short) dx_long dx_short b_on_left color
  else (buf, y, x_long, x_short)
termination_by (yEnd - y).toNat
decreasing_by
  all_goals omega

/-- `draw_triangle` from rasterize.c. -/
def draw_triangle (buf : Buf) (ax ay bx byy cx cy : Int) (color : Nat) : Buf :=
  let det := (bx - ax) * (cy - ay) - (byy - ay) * (cx - ax)
  if det < 0 then buf
  else
    let (ax, ay, bx, byy, cx, cy, swaps) := sortTri ax ay bx byy cx cy
    if ay = cy then buf
    else
      let b_on_left : Bool := swaps % 2 = 1
      let dx_ac := Int.tdiv ((cx - ax) * 256) (cy - ay)
      let x_long := ax * 256 + dx_ac / 2
      let y := ay
      let (buf, y, x_long) :=
        if ay < byy then
          let dx_ab := Int.tdiv ((bx - ax) * 256) (byy - ay)
          let x_short := ax * 256 + dx_ab / 2
          let r := scanHalf buf y byy x_long x_short dx_ac dx_ab b_on_left color
          (r.1, r.2.1, r.2.2.1)
        else (buf, y, x_long)
      if byy < cy then
        let dx_bc := Int.tdiv ((cx - bx) * 256) (cy - byy)
        let x_short := bx * 256 + dx_bc / 2
        (scanHalf buf y cy x_long x_short dx_ac dx_bc b_on_left color).1
      else buf

/-- Sortedness of the three-swap sort. -/
theorem sortTri_sorted (ax ay bx byy cx cy : Int)
    (ax' ay' bx' by' cx' cy' : Int) (sw : Nat)
    (heq : sortTri ax ay bx byy cx cy = (ax', ay', bx', by', cx', cy', sw)) :
    ay' ≤ by' ∧ by' ≤ cy' := by
  simp only [sortTri] at heq
  split_ifs at heq <;>
    (simp only [Prod.mk.injEq] at heq
     obtain ⟨-, h2, -, h4, -, h6, -⟩ := heq
     omega)

/-- The sort is the identity on triangles whose vertices share one y. -/
theorem sortTri_flat (ax ay bx byy cx cy : Int) (h1 : ay = byy) (h2 : byy = cy) :
    sortTri ax ay bx byy cx cy = (ax, ay, bx, byy, cx, cy, 0) := by
  simp [sortTri, show ¬ (ay > byy) by omega, show ¬ (byy > cy) by omega]

/-- C6: a backfacing triangle (negative signed area) and a triangle with
zero vertical extent (all three vertices on one scanline) leave the
buffer entirely unchanged; no error is signalled. -/
theorem C6_cull_and_flat (buf : Buf) (ax ay bx byy cx cy : Int) (color : Nat)
    (h : (bx - ax) * (cy - ay) - (byy - ay) * (cx - ax) < 0 ∨ (ay = byy ∧ byy = cy)) :
    draw_triangle buf ax ay bx byy cx cy color = buf := by
  rcases h with h | ⟨h1, h2⟩
  · simp only [draw_triangle]
    rw [if_pos h]
  · by_cases hdet : (bx - ax) * (cy - ay) - (byy - ay) * (cx - ax) < 0
    · simp only [draw_triangle]
      rw [if_pos hdet]
    · simp only [draw_triangle, if_neg hdet, sortTri_flat ax ay bx byy cx cy h1 h2]
      rw [if_pos (by omega : ay = cy)]

theorem C6_cull_and_flat_witness :
    (((30 : Int) - 10) * ((10 : Int) - 10) - ((30 : Int) - 10) * ((20 : Int) - 10) < 0 ∨
      ((10 : Int) = 30 ∧ (30 : Int) = 10)) ∧
    draw_triangle buf0 10 10 30 30 20 10 1 = buf0 :=
  ⟨by decide, C6_cull_and_flat buf0 10 10 30 30 20 10 1 (by decide)⟩

/-- C7: after culling guarantees `det ≥ 0`, the side of the middle
vertex B relative to the long edge A→C of the y-sorted triangle is
determined solely by the parity of the number of swaps: the sorted cross
product equals `det` for an even number of swaps and `-det` for an odd
number, so an odd swap count forces it `≤ 0`, i.e. B weakly to the left
of the directed edge from the top vertex to the bottom vertex. -/
theorem C7_swap_parity (ax ay bx byy cx cy : Int)
    (hdet : 0 ≤ (bx - ax) * (cy - ay) - (byy - ay) * (cx - ax)) :
    ∀ ax' ay' bx' by' cx' cy' : Int, ∀ sw : Nat,
      sortTri ax ay bx byy cx cy = (ax', ay', bx', by', cx', cy', sw) →
      ay' < cy' →
      ((sw % 2 = 1 → (bx' - ax') * (cy' - ay') - (by' - ay') * (cx' - ax') ≤ 0) ∧
       (sw % 2 = 0 → 0 ≤ (bx' - ax') * (cy' - ay') - (by' - ay') * (cx' - ax'))) := by
  intro ax' ay' bx' by' cx' cy' sw heq hext
  simp only [sortTri] at heq
  split_ifs at heq <;>
    (simp only [Prod.mk.injEq] at heq
     obtain ⟨e1, e2, e3, e4, e5, e6, e7⟩ := heq
     subst e1; subst e2; subst e3; subst e4; subst e5; subst e6; subst e7
     refine ⟨fun hp => ?_, fun hp => ?_⟩ <;>
       first
         | (exfalso; omega)
         | nlinarith [hdet])

theorem C7_swap_parity_witness :
    ((0 : Int) ≤ ((20 : Int) - 10) * ((30 : Int) - 20) - ((10 : Int) - 20) * ((15 : Int) - 10)) ∧
    sortTri 10 20 20 10 15 30 = (20, 10, 10, 20, 15, 30, 1) ∧ (10 : Int) < 30 ∧
    (((1 : Nat) % 2 = 1 →
        ((10 : Int) - 20) * ((30 : Int) - 10) - ((20 : Int) - 10) * ((15 : Int) - 20) ≤ 0) ∧
     ((1 : Nat) % 2 = 0 →
        0 ≤ ((10 : Int) - 20) * ((30 : Int) - 10) - ((20 : Int) - 10) * ((15 : Int) - 20))) :=
  ⟨by decide, by decide, by decide,
   C7_swap_parity 10 20 20 10 15 30 (by decide) 20 10 10 20 15 30 1 (by decide) (by decide)⟩

/-- `draw_triangle` with every division site guarded: if a slope
division `((x2-x1) << 8) / (y2-y1)` were ever reached with a zero
divisor, the function would return `none` instead of drawing.  The
computation is otherwise exactly `draw_triangle`. -/
def draw_triangleChecked (buf : Buf) (ax ay bx byy cx cy : Int) (color : Nat) : Option Buf :=
  let det := (bx - ax) * (cy - ay) - (byy - ay) * (cx - ax)
  if det < 0 then some buf
  else
    let (ax, ay, bx, byy, cx, cy, swaps) := sortTri ax ay bx byy cx cy
    if ay = cy then some buf
    else
      let b_on_left : Bool := swaps % 2 = 1
      if cy - ay = 0 then none
      else
        let dx_ac := Int.tdiv ((cx - ax) * 256) (cy - ay)
        let x_long := ax * 256 + dx_ac / 2
        let y := ay
        if ay < byy then
          if byy - ay = 0 then none
          else
            let dx_ab := Int.tdiv ((bx - ax) * 256) (byy - ay)
            let x_short := ax * 256 + dx_ab / 2
            let r := scanHalf buf y byy x_long x_short dx_ac dx_ab b_on_left color
            if byy < cy then
              if cy - byy = 0 then none
              else
                let dx_bc := Int.tdiv ((cx - bx) * 256) (cy - byy)
                let x_short := bx * 256 + dx_bc / 2
                some (scanHalf r.1 r.2.1 cy r.2.2.1 x_short dx_ac dx_bc b_on_left color).1
            else some r.1
        else
          if byy < cy then
            if cy - byy = 0 then none
            else
              let dx_bc := Int.tdiv ((cx - bx) * 256) (cy - byy)
              let x_short := bx * 256 + dx_bc / 2
              some (scanHalf buf y cy x_long x_short dx_ac dx_bc b_on_left color).1
          else some buf

/-- C8: `draw_triangle` is total — on every integer input triangle the
division-checked variant never takes a `none` branch: after the early
returns and loop guards the three slope divisors `cy-ay`, `by-ay` and
`cy-by` are positive at their division sites. -/
theorem C8_no_division_by_zero (buf : Buf) (ax ay bx byy cx cy : Int) (color : Nat) :
    draw_triangleChecked buf ax ay bx byy cx cy color =
      some (draw_triangle buf ax ay bx byy cx cy color) := by
  rcases hsort : sortTri ax ay bx byy cx cy with ⟨ax', ay', bx', by', cx', cy', sw⟩
  obtain ⟨hs1, hs2⟩ := sortTri_sorted ax ay bx byy cx cy ax' ay' bx' by' cx' cy' sw hsort
  simp only [draw_triangleChecked, draw_triangle, hsort]
  split_ifs <;> first | rfl | omega

/- ### Mesh transform and render (mesh.c)
The rotation tables `rcos`/`rsin` are built once from floating-point
`cos`/`sin` in `init_mesh_tables`; the claims about `transform_mesh` and
`render_mesh` hold for arbitrary table contents, so the model takes the
two tables as parameters.  `int16_t` stores wrap two's-complement. -/

/-- The `Mesh` structure of mesh.h: face index/color arrays, vertex
coordinate arrays, world position and 8-bit rotation angle. -/
structure Mesh where
  i : Nat → Nat
  j : Nat → Nat
  k : Nat → Nat
  col : Nat → Nat
  num_faces : Nat
  x : Nat → Int
  y : Nat → Int
  z : Nat → Int
  num_vertices : Nat
  px : Int
  py : Int
  pz : Int
  theta : Nat

/-- `int16_t` conversion: wrap into [-32768, 32768). -/
def wrap16 (a : Int) : Int := (a + 32768) % 65536 - 32768

/-- Pointwise store into a caller-owned output array. -/
def updArr (a : Nat → Int) (v : Nat) (t : Int) : Nat → Int :=
  fun u => if u = v then t else a u

/-- `rot_x = (c*lx + s*lz) >> 7` (arithmetic shift; the value fits int16). -/
def rot_x (c s : Int) (m : Mesh) (v : Nat) : Int := (c * m.x v + s * m.z v) / 128

/-- `rot_z = (-s*lx + c*lz) >> 7`. -/
def rot_z (c s : Int) (m : Mesh) (v : Nat) : Int := ((-s) * m.x v + c * m.z v) / 128

/-- `int16_t world_x = rot_x + m->px`. -/
def world_x (c s : Int) (m : Mesh) (v : Nat) : Int := wrap16 (rot_x c s m v + m.px)

/-- `int16_t world_z = rot_z + m->pz`. -/
def world_z (c s : Int) (m : Mesh) (v : Nat) : Int := wrap16 (rot_z c s m v + m.pz)

/-- `int16_t world_y = ly + m->py`. -/
def world_y (m : Mesh) (v : Nat) : Int := wrap16 (m.y v + m.py)

/-- `screen_x[v] = 40 + ((world_x << 8) / world_z)` (C division truncates
toward zero; the int16 store wraps). -/
def screen_x_val (c s : Int) (m : Mesh) (v : Nat) : Int :=
  wrap16 (40 + Int.tdiv (world_x c s m v * 256) (world_z c s m v))

/-- `screen_y[v] = 25 - ((world_y << 8) / world_z)`. -/
def screen_y_val (c s : Int) (m : Mesh) (v : Nat) : Int :=
  wrap16 (25 - Int.tdiv (world_y m v * 256) (world_z c s m v))

/-- The vertex loop of `transform_mesh`: processes vertices in order,
returning -1 at the first vertex behind the camera (outputs written so
far are kept), 0 when all vertices project. -/
def tmLoop (c s : Int) (m : Mesh) (v : Nat) (sx sy : Nat → Int) :
    Int × (Nat → Int) × (Nat → Int) :=
  if h : v < m.num_vertices then
    if world_z c s m v ≤ 0 then (-1, sx, sy)
    else
      tmLoop c s m (v + 1)
        (updArr sx v (screen_x_val c s m v))
        (updArr sy v (screen_y_val c s m v))
  else (0, sx, sy)
termination_by m.num_vertices - v

/-- `transform_mesh` from mesh.c, over given rotation tables and the
caller's (uninitialized) output arrays. -/
def transform_mesh (rc rs : Nat → Int) (m : Mesh) (sx sy : Nat → Int) :
    Int × (Nat → Int) × (Nat → Int) :=
  tmLoop (rc m.theta) (rs m.theta) m 0 sx sy

/-- The face loop of `render_mesh`. -/
def renderFaces (m : Mesh) (sx sy : Nat → Int) (buf : Buf) (f : Nat) : Buf :=
  if h : f < m.num_faces then
    renderFaces m sx sy
      (draw_triangle buf (sx (m.i f)) (sy (m.i f)) (sx (m.j f)) (sy (m.j f))
        (sx (m.k f)) (sy (m.k f)) (m.col f)) (f + 1)
  else buf
termination_by m.num_faces - f

/-- `render_mesh` from mesh.c.  The local `screen_x`/`screen_y` arrays
are modelled as zero-initialized. -/
def render_mesh (rc rs : Nat → Int) (buf : Buf) (m : Mesh) : Buf :=
  let r := transform_mesh rc rs m (fun _ => 0) (fun _ => 0)
  if r.1 < 0 then buf
  else renderFaces m r.2.1 r.2.2 buf 0

/-- Return value of the vertex loop: -1 exactly when some not-yet-processed
vertex is behind the camera; otherwise 0. -/
theorem tmLoop_ret (c s : Int) (m : Mesh) :
    ∀ (n v : Nat) (sx sy : Nat → Int), m.num_vertices - v ≤ n →
      (((tmLoop c s m v sx sy).1 = -1 ↔
        ∃ u, v ≤ u ∧ u < m.num_vertices ∧ world_z c s m u ≤ 0) ∧
       ((tmLoop c s m v sx sy).1 = -1 ∨ (tmLoop c s m v sx sy).1 = 0)) := by
  intro n
  induction n with
  | zero =>
    intro v sx sy hn
    have hv : ¬ v < m.num_vertices := by omega
    rw [tmLoop, dif_neg hv]
    refine ⟨⟨fun h => absurd h (by norm_num), fun ⟨u, h1, h2, _⟩ => by omega⟩, Or.inr rfl⟩
  | succ nn ih =>
    intro v sx sy hn
    by_cases hv : v < m.num_vertices
    · rw [tmLoop, dif_pos hv]
      by_cases hz : world_z c s m v ≤ 0
      · rw [if_pos hz]
        exact ⟨⟨fun _ => ⟨v, le_refl v, hv, hz⟩, fun _ => rfl⟩, Or.inl rfl⟩
      · rw [if_neg hz]
        obtain ⟨ih1, ih2⟩ := ih (v + 1)
          (updArr sx v (screen_x_val c s m v)) (updArr sy v (screen_y_val c s m v))
          (by omega)
        refine ⟨⟨fun h => ?_, fun ⟨u, h1, h2, h3⟩ => ?_⟩, ih2⟩
        · obtain ⟨u, h1, h2, h3⟩ := ih1.mp h
          exact ⟨u, by omega, h2, h3⟩
        · refine ih1.mpr ⟨u, ?_, h2, h3⟩
          rcases Nat.eq_or_lt_of_le h1 with he | hlt
          · exact absurd (he ▸ h3) hz
          · omega
    · rw [tmLoop, dif_neg hv]
      refine ⟨⟨fun h => absurd h (by norm_num), fun ⟨u, h1, h2, _⟩ => by omega⟩, Or.inr rfl⟩

/-- The vertex loop never writes below its start index. -/
theorem tmLoop_frame (c s : Int) (m : Mesh) :
    ∀ (n v : Nat) (sx sy : Nat → Int), m.num_vertices - v ≤ n →
      ∀ u, u < v →
        (tmLoop c s m v sx sy).2.1 u = sx u ∧ (tmLoop c s m v sx sy).2.2 u = sy u := by
  intro n
  induction n with
  | zero =>
    intro v sx sy hn u hu
    have hv : ¬ v < m.num_vertices := by omega
    rw [tmLoop, dif_neg hv]
    exact ⟨rfl, rfl⟩
  | succ nn ih =>
    intro v sx sy hn u hu
    by_cases hv : v < m.num_vertices
    · rw [tmLoop, dif_pos hv]
      by_cases hz : world_z c s m v ≤ 0
      · rw [if_pos hz]
        exact ⟨rfl, rfl⟩
      · rw [if_neg hz]
        obtain ⟨h1, h2⟩ := ih (v + 1)
          (updArr sx v (screen_x_val c s m v)) (updArr sy v (screen_y_val c s m v))
          (by omega) u (by omega)
        rw [h1, h2]
        unfold updArr
        rw [if_neg (by omega), if_neg (by omega)]
        exact ⟨rfl, rfl⟩
    · rw [tmLoop, dif_neg hv]
      exact ⟨rfl, rfl⟩

/-- Every vertex processed before the first rejected one receives its
projected coordinates. -/
theorem tmLoop_fill (c s : Int) (m : Mesh) :
    ∀ (n v : Nat) (sx sy : Nat → Int), m.num_vertices - v ≤ n →
      ∀ u, v ≤ u → u < m.num_vertices →
        (∀ jj, v ≤ jj → jj ≤ u → 0 < world_z c s m jj) →
        (tmLoop c s m v sx sy).2.1 u = screen_x_val c s m u ∧
        (tmLoop c s m v sx sy).2.2 u = screen_y_val c s m u := by
  intro n
  induction n with
  | zero =>
    intro v sx sy hn u h1 h2 h3
    omega
  | succ nn ih =>
    intro v sx sy hn u h1 h2 h3
    have hv : v < m.num_vertices := by omega
    rw [tmLoop, dif_pos hv,
      if_neg (by have := h3 v (le_refl v) h1; omega)]
    rcases Nat.eq_or_lt_of_le h1 with he | hlt
    · subst he
      obtain ⟨f1, f2⟩ := tmLoop_frame c s m (m.num_vertices - (v + 1)) (v + 1)
        (updArr sx v (screen_x_val c s m v)) (updArr sy v (screen_y_val c s m v))
        (by omega) v (by omega)
      rw [f1, f2]
      unfold updArr
      rw [if_pos rfl, if_pos rfl]
      exact ⟨rfl, rfl⟩
    · exact ih (v + 1)
        (updArr sx v (screen_x_val c s m v)) (updArr sy v (screen_y_val c s m v))
        (by omega) u (by omega) h2 (fun jj hj1 hj2 => h3 jj (by omega) hj2)

/-- C3: if any vertex of the mesh, after rotation and translation, has
`world_z ≤ 0`, then `render_mesh` leaves the pixel buffer byte-for-byte
unchanged — no face is drawn even partially. -/
theorem C3_whole_mesh_rejection (rc rs : Nat → Int) (buf : Buf) (m : Mesh)
    (h : ∃ v, v < m.num_vertices ∧ world_z (rc m.theta) (rs m.theta) m v ≤ 0) :
    render_mesh rc rs buf m = buf := by
  unfold render_mesh transform_mesh
  obtain ⟨v, hv, hz⟩ := h
  have hret := (tmLoop_ret (rc m.theta) (rs m.theta) m m.num_vertices 0
    (fun _ => 0) (fun _ => 0) (by omega)).1.mpr ⟨v, by omega, hv, hz⟩
  rw [if_pos (by rw [hret]; norm_num)]

/-- C9: `transform_mesh` returns -1 iff some vertex has `world_z ≤ 0`
(else 0); on success every vertex's projected coordinates are stored;
on failure the vertices before the first offending one have already been
written (the output arrays are not atomic). -/
theorem C9_transform_mesh_contract (rc rs : Nat → Int) (m : Mesh) (sx sy : Nat → Int) :
    ((transform_mesh rc rs m sx sy).1 = -1 ↔
      ∃ v, v < m.num_vertices ∧ world_z (rc m.theta) (rs m.theta) m v ≤ 0) ∧
    ((transform_mesh rc rs m sx sy).1 = -1 ∨ (transform_mesh rc rs m sx sy).1 = 0) ∧
    ((transform_mesh rc rs m sx sy).1 = 0 → ∀ v, v < m.num_vertices →
      (transform_mesh rc rs m sx sy).2.1 v = screen_x_val (rc m.theta) (rs m.theta) m v ∧
      (transform_mesh rc rs m sx sy).2.2 v = screen_y_val (rc m.theta) (rs m.theta) m v) ∧
    (∀ b, b < m.num_vertices → world_z (rc m.theta) (rs m.theta) m b ≤ 0 →
      (∀ jj, jj < b → 0 < world_z (rc m.theta) (rs m.theta) m jj) →
      ∀ jj, jj < b →
        (transform_mesh rc rs m sx sy).2.1 jj =
          screen_x_val (rc m.theta) (rs m.theta) m jj ∧
        (transform_mesh rc rs m sx sy).2.2 jj =
          screen_y_val (rc m.theta) (rs m.theta) m jj) := by
  unfold transform_mesh
  obtain ⟨hiff, hor⟩ := tmLoop_ret (rc m.theta) (rs m.theta) m m.num_vertices 0 sx sy
    (by omega)
  refine ⟨?_, hor, fun h0 v hv => ?_, fun b hb hbz hpre jj hjj => ?_⟩
  · constructor
    · intro h
      obtain ⟨u, -, h2, h3⟩ := hiff.mp h
      exact ⟨u, h2, h3⟩
    · rintro ⟨u, h2, h3⟩
      exact hiff.mpr ⟨u, by omega, h2, h3⟩
  · refine tmLoop_fill (rc m.theta) (rs m.theta) m m.num_vertices 0 sx sy (by omega)
      v (by omega) hv (fun jj hj1 hj2 => ?_)
    by_contra hneg
    have : (tmLoop (rc m.theta) (rs m.theta) m 0 sx sy).1 = -1 :=
      hiff.mpr ⟨jj, by omega, by omega, by omega⟩
    omega
  · exact tmLoop_fill (rc m.theta) (rs m.theta) m m.num_vertices 0 sx sy (by omega)
      jj (by omega) (by omega) (fun u hu1 hu2 => hpre u (by omega))

/-- A one-vertex mesh at the origin (behind the camera for zero tables),
used as a concrete witness input. -/
def mesh0 : Mesh where
  i := fun _ => 0
  j := fun _ => 0
  k := fun _ => 0
  col := fun _ => 1
  num_faces := 1
  x := fun _ => 0
  y := fun _ => 0
  z := fun _ => 0
  num_vertices := 1
  px := 0
  py := 0
  pz := 0
  theta := 0

theorem C3_whole_mesh_rejection_witness :
    (∃ v, v < mesh0.num_vertices ∧
      world_z ((fun _ => 0) mesh0.theta) ((fun _ => 0) mesh0.theta) mesh0 v ≤ 0) ∧
    render_mesh (fun _ => 0) (fun _ => 0) buf0 mesh0 = buf0 :=
  ⟨⟨0, by decide, by decide⟩,
   C3_whole_mesh_rejection (fun _ => 0) (fun _ => 0) buf0 mesh0 ⟨0, by decide, by decide⟩⟩

/- ### C2 infrastructure: the reference rasterizer of test.c and the
equivalence of `draw_triangle` with it. -/

theorem pixEq_refl (b : Buf) : pixEq b b := fun _ _ => rfl

theorem pixEq_trans {b1 b2 b3 : Buf} (h1 : pixEq b1 b2) (h2 : pixEq b2 b3) : pixEq b1 b3 :=
  fun x y => (h1 x y).trans (h2 x y)

theorem set_pixel_run_congr {b1 b2 : Buf} (h : pixEq b1 b2) (y xl xr : Int) (c : Nat) :
    pixEq (set_pixel_run b1 y xl xr c) (set_pixel_run b2 y xl xr c) := by
  intro x' y'
  rw [get_set_pixel_run, get_set_pixel_run, h x' y']

/-- `draw_span_top` is pixel-identical to the per-pixel loop. -/
theorem span_top_run_pixEq (buf : Buf) (y xl xr : Int) (c : Nat)
    (hy0 : 0 ≤ y) (hy1 : y < 50) (hye : y % 2 = 0)
    (hxl : 0 ≤ xl) (hxr : xr ≤ 80) (hc : c ≤ 3) :
    pixEq (draw_span_top buf y xl xr c) (set_pixel_run buf y xl xr c) := by
  intro x' y'
  rw [get_draw_span_top buf y xl xr c x' y' hy0 hy1 hye hxl hxr hc,
    get_set_pixel_run, Nat.mod_eq_of_lt (by omega)]

/-- `draw_span_bottom` is pixel-identical to the per-pixel loop. -/
theorem span_bottom_run_pixEq (buf : Buf) (y xl xr : Int) (c : Nat)
    (hy0 : 0 ≤ y) (hy1 : y < 50) (hyo : y % 2 = 1)
    (hxl : 0 ≤ xl) (hxr : xr ≤ 80) (hc : c ≤ 3) :
    pixEq (draw_span_bottom buf y xl xr c) (set_pixel_run buf y xl xr c) := by
  intro x' y'
  rw [get_draw_span_bottom buf y xl xr c x' y' hy0 hy1 hyo hxl hxr hc,
    get_set_pixel_run, Nat.mod_eq_of_lt (by omega)]

/-- Truncating division by a positive divisor, nonnegative dividend. -/
theorem tdiv_bounds_pos (N d : Int) (hd : 0 < d) (hN : 0 ≤ N) :
    0 ≤ Int.tdiv N d ∧ d * Int.tdiv N d ≤ N := by
  rw [Int.tdiv_eq_ediv hN (le_of_lt hd)]
  refine ⟨Int.ediv_nonneg hN (by omega), ?_⟩
  have := Int.ediv_mul_le N (show d ≠ 0 by omega)
  linarith [this]

/-- Truncating division by a positive divisor, nonpositive dividend. -/
theorem tdiv_bounds_neg (N d : Int) (hd : 0 < d) (hN : N ≤ 0) :
    Int.tdiv N d ≤ 0 ∧ N ≤ d * Int.tdiv N d := by
  have h1 : Int.tdiv N d = -((-N) / d) := by
    rw [show N = -(-N) by ring, Int.neg_tdiv,
      Int.tdiv_eq_ediv (by omega) (by omega)]
    ring_nf
  have h2 := Int.ediv_mul_le (-N) (show d ≠ 0 by omega)
  have h3 := Int.ediv_nonneg (show (0:Int) ≤ -N by omega) (show (0:Int) ≤ d by omega)
  constructor
  · rw [h1]; omega
  · rw [h1]; nlinarith [h2]

/-- One scanline of the reference rasterizer (test.c): the two edge
x-intersections at y+0.5 in 8.8 fixed point, returned as the half-open
pixel interval [xl, xr). -/
def refRow (ax ay bx byy cx cy dx_ac : Int) (y : Int) : Int × Int :=
  let x_ac_fp := ax * 256 + dx_ac * (y - ay) + dx_ac / 2
  let x_other_fp :=
    if y < byy then
      if byy ≠ ay then
        let dx_ab := Int.tdiv ((bx - ax) * 256) (byy - ay)
        ax * 256 + dx_ab * (y - ay) + dx_ab / 2
      else ax * 256
    else
      if cy ≠ byy then
        let dx_bc := Int.tdiv ((cx - bx) * 256) (cy - byy)
        bx * 256 + dx_bc * (y - byy) + dx_bc / 2
      else bx * 256
  ((if x_ac_fp < x_other_fp then x_ac_fp else x_other_fp) / 256,
   (if x_ac_fp > x_other_fp then x_ac_fp else x_other_fp) / 256)

/-- The scanline loop of the reference rasterizer. -/
def refRows (buf : Buf) (ax ay bx byy cx cy dx_ac : Int) (color : Nat) (y : Int) : Buf :=
  if h : y < cy then
    let r := refRow ax ay bx byy cx cy dx_ac y
    refRows (set_pixel_run buf y r.1 r.2 color) ax ay bx byy cx cy dx_ac color (y + 1)
  else buf
termination_by (cy - y).toNat
decreasing_by
  omega

/-- `reference_triangle` from test.c: same culling, the same three-swap
y-sort (the counter unused), same degeneracy check, then per scanline
the two edge intersections computed independently and filled with
`set_pixel`. -/
def reference_triangle (buf : Buf) (ax ay bx byy cx cy : Int) (color : Nat) : Buf :=
  let det := (bx - ax) * (cy - ay) - (byy - ay) * (cx - ax)
  if det < 0 then buf
  else
    let (ax, ay, bx, byy, cx, cy, _) := sortTri ax ay bx byy cx cy
    if ay = cy then buf
    else
      let dx_ac := Int.tdiv ((cx - ax) * 256) (cy - ay)
      refRows buf ax ay bx byy cx cy dx_ac color ay

/-- The 8.8 fixed-point x position sampled on an edge from (x1,y1) to
(x2,y2) stays inside the screen: with both endpoints' x in [0,79] and
height at most 49, every scanline sample `x1*256 + dx*k + dx/2` lies in
[0, 79*256+255], so its `>> 8` lies in [0,79]. -/
theorem edge_fp_bounds (x1 y1 x2 y2 k : Int)
    (hx1 : 0 ≤ x1) (hx1' : x1 ≤ 79) (hx2 : 0 ≤ x2) (hx2' : x2 ≤ 79)
    (hd : y1 < y2) (hd' : y2 - y1 ≤ 49) (hk : 0 ≤ k) (hk' : k < y2 - y1) :
    0 ≤ x1 * 256 + Int.tdiv ((x2 - x1) * 256) (y2 - y1) * k
        + Int.tdiv ((x2 - x1) * 256) (y2 - y1) / 2 ∧
    x1 * 256 + Int.tdiv ((x2 - x1) * 256) (y2 - y1) * k
        + Int.tdiv ((x2 - x1) * 256) (y2 - y1) / 2 ≤ 79 * 256 + 255 := by
  set d := y2 - y1 with hdd
  set N := (x2 - x1) * 256 with hNN
  set dx := Int.tdiv N d with hdx
  have hdpos : 0 < d := by omega
  rcases le_or_lt 0 N with hNp | hNn
  · obtain ⟨h1, h2⟩ := tdiv_bounds_pos N d hdpos hNp
    have t1 : 0 ≤ dx * k := mul_nonneg h1 hk
    have t2 : 0 ≤ dx / 2 := by omega
    have t3 : dx * (k + 1) ≤ dx * d := mul_le_mul_of_nonneg_left (by omega) h1
    have t5 : dx / 2 ≤ dx := by omega
    constructor
    · linarith
    · nlinarith
  · obtain ⟨h1, h2⟩ := tdiv_bounds_neg N d hdpos (le_of_lt hNn)
    have t1 : dx * k ≤ 0 := mul_nonpos_of_nonpos_of_nonneg h1 hk
    have t2 : dx / 2 ≤ 0 := by omega
    constructor
    · have hB : 2 * k * N ≤ 2 * k * (d * dx) :=
        mul_le_mul_of_nonneg_left h2 (by omega)
      have hC' : d * (dx - 1) ≤ d * (2 * (dx / 2)) :=
        mul_le_mul_of_nonneg_left (by omega) (by omega)
      have hD : N * (2 * d - 1) ≤ N * (2 * k + 1) :=
        mul_le_mul_of_nonpos_left (by omega) (le_of_lt hNn)
      nlinarith [hB, hC', hD]
    · linarith

/-- Per-row reference fill with explicit accumulator stepping: fills
[min/256, max/256) on each row from y to yEnd, advancing both
accumulators by their slopes each row. -/
def refRun (buf : Buf) (y yEnd xlong xshort dx_long dx_short : Int) (c : Nat) : Buf :=
  if h : y < yEnd then
    refRun (set_pixel_run buf y (min xlong xshort / 256) (max xlong xshort / 256) c)
      (y + 1) yEnd (xlong + dx_long) (xshort + dx_short) dx_long dx_short c
  else buf
termination_by (yEnd - y).toNat
decreasing_by
  omega

theorem refRun_congr (yEnd dxl dxs : Int) (c : Nat) :
    ∀ (n : Nat) (y xlong xshort : Int) (b1 b2 : Buf),
      (yEnd - y).toNat ≤ n → pixEq b1 b2 →
      pixEq (refRun b1 y yEnd xlong xshort dxl dxs c)
        (refRun b2 y yEnd xlong xshort dxl dxs c) := by
  intro n
  induction n with
  | zero =>
    intro y xlong xshort b1 b2 hn h
    conv_lhs => rw [refRun]
    conv_rhs => rw [refRun]
    simp only [dif_neg (show ¬ y < yEnd by omega)]
    exact h
  | succ nn ih =>
    intro y xlong xshort b1 b2 hn h
    by_cases hy : y < yEnd
    · conv_lhs => rw [refRun]
      conv_rhs => rw [refRun]
      simp only [dif_pos hy]
      exact ih (y + 1) _ _ _ _ (by omega) (set_pixel_run_congr h y _ _ c)
    · conv_lhs => rw [refRun]
      conv_rhs => rw [refRun]
      simp only [dif_neg hy]
      exact h

/-- The left/right pick plus conditional swap in `draw_triangle` equals
taking min and max before the shift, whichever side the short edge is on. -/
theorem pick_fst (xlong xshort : Int) (b : Bool) :
    (if (if b then xshort else xlong) / 256 > (if b then xlong else xshort) / 256
     then ((if b then xlong else xshort) / 256, (if b then xshort else xlong) / 256)
     else ((if b then xshort else xlong) / 256, (if b then xlong else xshort) / 256)) =
    (min xlong xshort / 256, max xlong xshort / 256) := by
  cases b <;> split_ifs <;> simp only [Prod.mk.injEq] <;> constructor <;> omega

/-- The scanline loop of `draw_triangle` is pixel-identical to the
per-row accumulator reference `refRun`, exits exactly at `yEnd`, and
leaves both fixed-point accumulators at their closed-form values.
Requires every visited row's accumulators to stay inside the screen. -/
theorem scanHalf_spec (dxl dxs : Int) (b : Bool) (c : Nat) (yEnd : Int)
    (hc : c ≤ 3) (hEnd : yEnd ≤ 50) :
    ∀ (n : Nat) (y xlong xshort : Int) (buf buf2 : Buf),
      (yEnd - y).toNat ≤ n → 0 ≤ y → y ≤ yEnd →
      (∀ jj : Int, y ≤ jj → jj < yEnd →
        (0 ≤ xlong + dxl * (jj - y) ∧ xlong + dxl * (jj - y) ≤ 79 * 256 + 255) ∧
        (0 ≤ xshort + dxs * (jj - y) ∧ xshort + dxs * (jj - y) ≤ 79 * 256 + 255)) →
      pixEq buf buf2 →
      ∃ bufOut : Buf,
        scanHalf buf y yEnd xlong xshort dxl dxs b c =
          (bufOut, yEnd, xlong + dxl * (yEnd - y), xshort + dxs * (yEnd - y)) ∧
        pixEq bufOut (refRun buf2 y yEnd xlong xshort dxl dxs c) := by
  intro n
  induction n with
  | zero =>
    intro y xlong xshort buf buf2 hn hy0 hyE hB h
    have hyy : ¬ y < yEnd := by omega
    have hEq : y = yEnd := by omega
    subst hEq
    refine ⟨buf, ?_, ?_⟩
    · rw [scanHalf, dif_neg hyy]
      have e1 : xlong + dxl * (y - y) = xlong := by ring
      have e2 : xshort + dxs * (y - y) = xshort := by ring
      rw [e1, e2]
    · rw [refRun, dif_neg hyy]
      exact h
  | succ nn ih =>
    intro y xlong xshort buf buf2 hn hy0 hyE hB h
    by_cases hy : y < yEnd
    · rw [scanHalf, dif_pos hy]
      simp only [pick_fst]
      have hrowy := hB y (le_refl y) hy
      have hxl : 0 ≤ xlong ∧ xlong ≤ 79 * 256 + 255 := by
        constructor <;> linarith [hrowy.1.1, hrowy.1.2]
      have hxs : 0 ≤ xshort ∧ xshort ≤ 79 * 256 + 255 := by
        constructor <;> linarith [hrowy.2.1, hrowy.2.2]
      by_cases he : y % 2 = 0
      · by_cases hlt : y + 1 < yEnd
        · -- dual-row step
          simp only [if_pos (show y % 2 = 0 ∧ y + 1 < yEnd from ⟨he, hlt⟩)]
          have hrow2 := hB (y + 1) (by omega) hlt
          have hxl2 : 0 ≤ xlong + dxl ∧ xlong + dxl ≤ 79 * 256 + 255 := by
            constructor <;> linarith [hrow2.1.1, hrow2.1.2]
          have hxs2 : 0 ≤ xshort + dxs ∧ xshort + dxs ≤ 79 * 256 + 255 := by
            constructor <;> linarith [hrow2.2.1, hrow2.2.2]
          have hB' : ∀ jj : Int, y + 2 ≤ jj → jj < yEnd →
              (0 ≤ xlong + 2 * dxl + dxl * (jj - (y + 2)) ∧
                xlong + 2 * dxl + dxl * (jj - (y + 2)) ≤ 79 * 256 + 255) ∧
              (0 ≤ xshort + 2 * dxs + dxs * (jj - (y + 2)) ∧
                xshort + 2 * dxs + dxs * (jj - (y + 2)) ≤ 79 * 256 + 255) := by
            intro jj h1 h2
            have hh := hB jj (by omega) h2
            refine ⟨⟨?_, ?_⟩, ?_, ?_⟩ <;>
              linarith [hh.1.1, hh.1.2, hh.2.1, hh.2.2]
          have hdual : pixEq
              (draw_dual_row_intervals buf y (min xlong xshort / 256)
                (max xlong xshort / 256) (min (xlong + dxl) (xshort + dxs) / 256)
                (max (xlong + dxl) (xshort + dxs) / 256) c)
              (set_pixel_run
                (set_pixel_run buf2 y (min xlong xshort / 256) (max xlong xshort / 256) c)
                (y + 1) (min (xlong + dxl) (xshort + dxs) / 256)
                (max (xlong + dxl) (xshort + dxs) / 256) c) := by
            refine pixEq_trans
              (dual_blitter_pixEq buf y _ _ _ _ c hy0 (by omega) he hc
                (by omega) (by omega) (by omega) (by omega)) ?_
            exact set_pixel_run_congr (set_pixel_run_congr h y _ _ c) (y + 1) _ _ c
          obtain ⟨bufOut, hEq2, hPix⟩ := ih (y + 2) (xlong + 2 * dxl) (xshort + 2 * dxs)
            _ _ (by omega) (by omega) (by omega) hB' hdual
          refine ⟨bufOut, ?_, ?_⟩
          · rw [hEq2]
            simp only [Prod.mk.injEq]
            refine ⟨trivial, trivial, by ring, by ring⟩
          · conv_rhs => rw [refRun]
            rw [dif_pos hy]
            conv_rhs => rw [refRun]
            rw [dif_pos (show y + 1 < yEnd from hlt)]
            have harg0 : y + 1 + 1 = y + 2 := by ring
            have harg1 : xlong + dxl + dxl = xlong + 2 * dxl := by ring
            have harg2 : xshort + dxs + dxs = xshort + 2 * dxs := by ring
            rw [harg0, harg1, harg2]
            exact hPix
        · -- single even row, last of this trapezoid
          simp only [if_neg (show ¬ (y % 2 = 0 ∧ y + 1 < yEnd) from fun hh => hlt hh.2),
            if_pos (show y % 2 = 0 ∧ y + 1 ≥ yEnd from ⟨he, by omega⟩)]
          have hB' : ∀ jj : Int, y + 1 ≤ jj → jj < yEnd →
              (0 ≤ xlong + dxl + dxl * (jj - (y + 1)) ∧
                xlong + dxl + dxl * (jj - (y + 1)) ≤ 79 * 256 + 255) ∧
              (0 ≤ xshort + dxs + dxs * (jj - (y + 1)) ∧
                xshort + dxs + dxs * (jj - (y + 1)) ≤ 79 * 256 + 255) := by
            intro jj h1 h2
            have hh := hB jj (by omega) h2
            refine ⟨⟨?_, ?_⟩, ?_, ?_⟩ <;>
              linarith [hh.1.1, hh.1.2, hh.2.1, hh.2.2]
          have hspan : pixEq
              (draw_span_top buf y (min xlong xshort / 256) (max xlong xshort / 256) c)
              (set_pixel_run buf2 y (min xlong xshort / 256) (max xlong xshort / 256) c) :=
            pixEq_trans
              (span_top_run_pixEq buf y _ _ c hy0 (by omega) he (by omega) (by omega) hc)
              (set_pixel_run_congr h y _ _ c)
          obtain ⟨bufOut, hEq2, hPix⟩ := ih (y + 1) (xlong + dxl) (xshort + dxs)
            _ _ (by omega) (by omega) (by omega) hB' hspan
          refine ⟨bufOut, ?_, ?_⟩
          · rw [hEq2]
            simp only [Prod.mk.injEq]
            refine ⟨trivial, trivial, by ring, by ring⟩
          · conv_rhs => rw [refRun]
            rw [dif_pos hy]
            exact hPix
      · -- odd row
        simp only [if_neg (show ¬ (y % 2 = 0 ∧ y + 1 < yEnd) from fun hh => he hh.1),
          if_neg (show ¬ (y % 2 = 0 ∧ y + 1 ≥ yEnd) from fun hh => he hh.1)]
        have hB' : ∀ jj : Int, y + 1 ≤ jj → jj < yEnd →
            (0 ≤ xlong + dxl + dxl * (jj - (y + 1)) ∧
              xlong + dxl + dxl * (jj - (y + 1)) ≤ 79 * 256 + 255) ∧
            (0 ≤ xshort + dxs + dxs * (jj - (y + 1)) ∧
              xshort + dxs + dxs * (jj - (y + 1)) ≤ 79 * 256 + 255) := by
          intro jj h1 h2
          have hh := hB jj (by omega) h2
          refine ⟨⟨?_, ?_⟩, ?_, ?_⟩ <;>
            linarith [hh.1.1, hh.1.2, hh.2.1, hh.2.2]
        have hspan : pixEq
            (draw_span_bottom buf y (min xlong xshort / 256) (max xlong xshort / 256) c)
            (set_pixel_run buf2 y (min xlong xshort / 256) (max xlong xshort / 256) c) :=
          pixEq_trans
            (span_bottom_run_pixEq buf y _ _ c hy0 (by omega) (by omega) (by omega)
              (by omega) hc)
            (set_pixel_run_congr h y _ _ c)
        obtain ⟨bufOut, hEq2, hPix⟩ := ih (y + 1) (xlong + dxl) (xshort + dxs)
          _ _ (by omega) (by omega) (by omega) hB' hspan
        refine ⟨bufOut, ?_, ?_⟩
        · rw [hEq2]
          simp only [Prod.mk.injEq]
          refine ⟨trivial, trivial, by ring, by ring⟩
        · conv_rhs => rw [refRun]
          rw [dif_pos hy]
          exact hPix
    · have hEq : y = yEnd := by omega
      subst hEq
      refine ⟨buf, ?_, ?_⟩
      · rw [scanHalf, dif_neg hy]
        have e1 : xlong + dxl * (y - y) = xlong := by ring
        have e2 : xshort + dxs * (y - y) = xshort := by ring
        rw [e1, e2]
      · rw [refRun, dif_neg hy]
        exact h

theorem sel_min (a b : Int) : (if a < b then a else b) = min a b := by
  split_ifs <;> omega

theorem sel_max (a b : Int) : (if a > b then a else b) = max a b := by
  split_ifs <;> omega

/-- On the top trapezoid the reference row loop is the accumulator loop
`refRun` along the A→C and A→B edges, continued by the rows from B. -/
theorem refRows_top (ax ay bx byy cx cy : Int) (c : Nat)
    (h1 : ay < byy) (h2 : byy ≤ cy) :
    ∀ (n : Nat) (y : Int) (buf : Buf), (byy - y).toNat ≤ n → ay ≤ y → y ≤ byy →
      refRows buf ax ay bx byy cx cy (Int.tdiv ((cx - ax) * 256) (cy - ay)) c y =
        refRows
          (refRun buf y byy
            (ax * 256 + Int.tdiv ((cx - ax) * 256) (cy - ay) * (y - ay)
              + Int.tdiv ((cx - ax) * 256) (cy - ay) / 2)
            (ax * 256 + Int.tdiv ((bx - ax) * 256) (byy - ay) * (y - ay)
              + Int.tdiv ((bx - ax) * 256) (byy - ay) / 2)
            (Int.tdiv ((cx - ax) * 256) (cy - ay))
            (Int.tdiv ((bx - ax) * 256) (byy - ay)) c)
          ax ay bx byy cx cy (Int.tdiv ((cx - ax) * 256) (cy - ay)) c byy := by
  intro n
  induction n with
  | zero =>
    intro y buf hn hy1 hy2
    have hEq : y = byy := by omega
    subst hEq
    rw [refRun, dif_neg (lt_irrefl y)]
  | succ nn ih =>
    intro y buf hn hy1 hy2
    by_cases hy : y < byy
    · have hycy : y < cy := by omega
      conv_lhs => rw [refRows]
      rw [dif_pos hycy]
      conv_rhs => rw [refRun]
      rw [dif_pos hy]
      simp only [refRow, if_pos hy, if_pos (show byy ≠ ay by omega), sel_min, sel_max]
      rw [show ax * 256 + Int.tdiv ((cx - ax) * 256) (cy - ay) * (y - ay)
            + Int.tdiv ((cx - ax) * 256) (cy - ay) / 2
            + Int.tdiv ((cx - ax) * 256) (cy - ay)
          = ax * 256 + Int.tdiv ((cx - ax) * 256) (cy - ay) * (y + 1 - ay)
            + Int.tdiv ((cx - ax) * 256) (cy - ay) / 2 by ring,
        show ax * 256 + Int.tdiv ((bx - ax) * 256) (byy - ay) * (y - ay)
            + Int.tdiv ((bx - ax) * 256) (byy - ay) / 2
            + Int.tdiv ((bx - ax) * 256) (byy - ay)
          = ax * 256 + Int.tdiv ((bx - ax) * 256) (byy - ay) * (y + 1 - ay)
            + Int.tdiv ((bx - ax) * 256) (byy - ay) / 2 by ring]
      exact ih (y + 1) _ (by omega) (by omega) (by omega)
    · have hEq : y = byy := by omega
      subst hEq
      rw [refRun, dif_neg (lt_irrefl y)]

/-- On the bottom trapezoid the reference row loop is the accumulator
loop `refRun` along the A→C and B→C edges. -/
theorem refRows_bottom (ax ay bx byy cx cy : Int) (c : Nat)
    (h1 : byy < cy) :
    ∀ (n : Nat) (y : Int) (buf : Buf), (cy - y).toNat ≤ n → byy ≤ y → y ≤ cy →
      refRows buf ax ay bx byy cx cy (Int.tdiv ((cx - ax) * 256) (cy - ay)) c y =
        refRun buf y cy
          (ax * 256 + Int.tdiv ((cx - ax) * 256) (cy - ay) * (y - ay)
            + Int.tdiv ((cx - ax) * 256) (cy - ay) / 2)
          (bx * 256 + Int.tdiv ((cx - bx) * 256) (cy - byy) * (y - byy)
            + Int.tdiv ((cx - bx) * 256) (cy - byy) / 2)
          (Int.tdiv ((cx - ax) * 256) (cy - ay))
          (Int.tdiv ((cx - bx) * 256) (cy - byy)) c := by
  intro n
  induction n with
  | zero =>
    intro y buf hn hy1 hy2
    have hEq : y = cy := by omega
    subst hEq
    rw [refRows, dif_neg (lt_irrefl y), refRun, dif_neg (lt_irrefl y)]
  | succ nn ih =>
    intro y buf hn hy1 hy2
    by_cases hy : y < cy
    · conv_lhs => rw [refRows]
      rw [dif_pos hy]
      conv_rhs => rw [refRun]
      rw [dif_pos hy]
      simp only [refRow, if_neg (show ¬ y < byy by omega),
        if_pos (show cy ≠ byy by omega), sel_min, sel_max]
      rw [show ax * 256 + Int.tdiv ((cx - ax) * 256) (cy - ay) * (y - ay)
            + Int.tdiv ((cx - ax) * 256) (cy - ay) / 2
            + Int.tdiv ((cx - ax) * 256) (cy - ay)
          = ax * 256 + Int.tdiv ((cx - ax) * 256) (cy - ay) * (y + 1 - ay)
            + Int.tdiv ((cx - ax) * 256) (cy - ay) / 2 by ring,
        show bx * 256 + Int.tdiv ((cx - bx) * 256) (cy - byy) * (y - byy)
            + Int.tdiv ((cx - bx) * 256) (cy - byy) / 2
            + Int.tdiv ((cx - bx) * 256) (cy - byy)
          = bx * 256 + Int.tdiv ((cx - bx) * 256) (cy - byy) * (y + 1 - byy)
            + Int.tdiv ((cx - bx) * 256) (cy - byy) / 2 by ring]
      exact ih (y + 1) _ (by omega) (by omega) (by omega)
    · have hEq : y = cy := by omega
      subst hEq
      rw [refRows, dif_neg (lt_irrefl y), refRun, dif_neg (lt_irrefl y)]

/-- The three-swap sort permutes the vertices, hence preserves the
screen bounds. -/
theorem sortTri_bounds (ax ay bx byy cx cy ax' ay' bx' by' cx' cy' : Int) (sw : Nat)
    (heq : sortTri ax ay bx byy cx cy = (ax', ay', bx', by', cx', cy', sw))
    (h1 : 0 ≤ ax ∧ ax ≤ 79) (h2 : 0 ≤ ay ∧ ay ≤ 49)
    (h3 : 0 ≤ bx ∧ bx ≤ 79) (h4 : 0 ≤ byy ∧ byy ≤ 49)
    (h5 : 0 ≤ cx ∧ cx ≤ 79) (h6 : 0 ≤ cy ∧ cy ≤ 49) :
    (0 ≤ ax' ∧ ax' ≤ 79) ∧ (0 ≤ ay' ∧ ay' ≤ 49) ∧
    (0 ≤ bx' ∧ bx' ≤ 79) ∧ (0 ≤ by' ∧ by' ≤ 49) ∧
    (0 ≤ cx' ∧ cx' ≤ 79) ∧ (0 ≤ cy' ∧ cy' ≤ 49) := by
  simp only [sortTri] at heq
  split_ifs at heq <;>
    (simp only [Prod.mk.injEq] at heq
     obtain ⟨e1, e2, e3, e4, e5, e6, -⟩ := heq
     subst e1; subst e2; subst e3; subst e4; subst e5; subst e6
     omega)

/-- C2: for every triangle with on-screen vertices (including degenerate,
single-pixel, axis-aligned and either winding) and color in [0,3],
`draw_triangle` is pixel-identical to the reference rasterizer of
test.c, which — after the same culling, y-sort and degeneracy check —
recomputes each scanline's two edge intersections independently with the
same 8.8 fixed-point slopes and y+0.5 sampling and fills the half-open
interval per pixel with `set_pixel`.  The proof threads the long edge's
accumulator from the top trapezoid into the bottom trapezoid by its
closed form, which is exactly the no-reinitialization behavior. -/
theorem C2_draw_triangle_reference_equiv (buf : Buf) (ax ay bx byy cx cy : Int) (c : Nat)
    (hax : 0 ≤ ax) (hax' : ax < 80) (hay : 0 ≤ ay) (hay' : ay < 50)
    (hbx : 0 ≤ bx) (hbx' : bx < 80) (hby : 0 ≤ byy) (hby' : byy < 50)
    (hcx : 0 ≤ cx) (hcx' : cx < 80) (hcy : 0 ≤ cy) (hcy' : cy < 50)
    (hc : c ≤ 3) :
    pixEq (draw_triangle buf ax ay bx byy cx cy c)
      (reference_triangle buf ax ay bx byy cx cy c) := by
  by_cases hdet : (bx - ax) * (cy - ay) - (byy - ay) * (cx - ax) < 0
  · simp only [draw_triangle, reference_triangle, if_pos hdet]
    exact pixEq_refl buf
  · rcases hsort : sortTri ax ay bx byy cx cy with ⟨ax', ay', bx', by', cx', cy', sw⟩
    obtain ⟨hs1, hs2⟩ := sortTri_sorted ax ay bx byy cx cy ax' ay' bx' by' cx' cy' sw hsort
    obtain ⟨hv1, hv2, hv3, hv4, hv5, hv6⟩ := sortTri_bounds ax ay bx byy cx cy
      ax' ay' bx' by' cx' cy' sw hsort ⟨hax, by omega⟩ ⟨hay, by omega⟩ ⟨hbx, by omega⟩
      ⟨hby, by omega⟩ ⟨hcx, by omega⟩ ⟨hcy, by omega⟩
    simp only [draw_triangle, reference_triangle, if_neg hdet, hsort]
    by_cases hflat : ay' = cy'
    · simp only [if_pos hflat]
      exact pixEq_refl buf
    · simp only [if_neg hflat]
      have haylt : ay' < cy' := by omega
      by_cases hTop : ay' < by'
      · -- top trapezoid runs
        have hB1 : ∀ jj : Int, ay' ≤ jj → jj < by' →
            (0 ≤ ax' * 256 + Int.tdiv ((cx' - ax') * 256) (cy' - ay') / 2
                + Int.tdiv ((cx' - ax') * 256) (cy' - ay') * (jj - ay') ∧
              ax' * 256 + Int.tdiv ((cx' - ax') * 256) (cy' - ay') / 2
                + Int.tdiv ((cx' - ax') * 256) (cy' - ay') * (jj - ay') ≤ 79 * 256 + 255) ∧
            (0 ≤ ax' * 256 + Int.tdiv ((bx' - ax') * 256) (by' - ay') / 2
                + Int.tdiv ((bx' - ax') * 256) (by' - ay') * (jj - ay') ∧
              ax' * 256 + Int.tdiv ((bx' - ax') * 256) (by' - ay') / 2
                + Int.tdiv ((bx' - ax') * 256) (by' - ay') * (jj - ay') ≤ 79 * 256 + 255) := by
          intro jj hj1 hj2
          have hAC := edge_fp_bounds ax' ay' cx' cy' (jj - ay') hv1.1 hv1.2 hv5.1 hv5.2
            haylt (by omega) (by omega) (by omega)
          have hAB := edge_fp_bounds ax' ay' bx' by' (jj - ay') hv1.1 hv1.2 hv3.1 hv3.2
            hTop (by omega) (by omega) (by omega)
          exact ⟨⟨by linarith [hAC.1], by linarith [hAC.2]⟩,
            ⟨by linarith [hAB.1], by linarith [hAB.2]⟩⟩
        obtain ⟨buf1, hEq1, hPix1⟩ := scanHalf_spec
          (Int.tdiv ((cx' - ax') * 256) (cy' - ay'))
          (Int.tdiv ((bx' - ax') * 256) (by' - ay'))
          (decide (sw % 2 = 1)) c by' hc (by omega)
          ((by' - ay').toNat) ay'
          (ax' * 256 + Int.tdiv ((cx' - ax') * 256) (cy' - ay') / 2)
          (ax' * 256 + Int.tdiv ((bx' - ax') * 256) (by' - ay') / 2)
          buf buf (le_refl _) (by omega) (by omega) hB1 (pixEq_refl buf)
        simp only [if_pos hTop, hEq1]
        by_cases hBot : by' < cy'
        · -- bottom trapezoid runs too
          have hB2 : ∀ jj : Int, by' ≤ jj → jj < cy' →
              (0 ≤ ax' * 256 + Int.tdiv ((cx' - ax') * 256) (cy' - ay') / 2
                  + Int.tdiv ((cx' - ax') * 256) (cy' - ay') * (by' - ay')
                  + Int.tdiv ((cx' - ax') * 256) (cy' - ay') * (jj - by') ∧
                ax' * 256 + Int.tdiv ((cx' - ax') * 256) (cy' - ay') / 2
                  + Int.tdiv ((cx' - ax') * 256) (cy' - ay') * (by' - ay')
                  + Int.tdiv ((cx' - ax') * 256) (cy' - ay') * (jj - by') ≤ 79 * 256 + 255) ∧
              (0 ≤ bx' * 256 + Int.tdiv ((cx' - bx') * 256) (cy' - by') / 2
                  + Int.tdiv ((cx' - bx') * 256) (cy' - by') * (jj - by') ∧
                bx' * 256 + Int.tdiv ((cx' - bx') * 256) (cy' - by') / 2
                  + Int.tdiv ((cx' - bx') * 256) (cy' - by') * (jj - by') ≤ 79 * 256 + 255) := by
            intro jj hj1 hj2
            have hAC := edge_fp_bounds ax' ay' cx' cy' (jj - ay') hv1.1 hv1.2 hv5.1 hv5.2
              haylt (by omega) (by omega) (by omega)
            have hBC := edge_fp_bounds bx' by' cx' cy' (jj - by') hv3.1 hv3.2 hv5.1 hv5.2
              hBot (by omega) (by omega) (by omega)
            exact ⟨⟨by linarith [hAC.1], by linarith [hAC.2]⟩,
              ⟨by linarith [hBC.1], by linarith [hBC.2]⟩⟩
          obtain ⟨buf2o, hEq2, hPix2⟩ := scanHalf_spec
            (Int.tdiv ((cx' - ax') * 256) (cy' - ay'))
            (Int.tdiv ((cx' - bx') * 256) (cy' - by'))
            (decide (sw % 2 = 1)) c cy' hc (by omega)
            ((cy' - by').toNat) by'
            (ax' * 256 + Int.tdiv ((cx' - ax') * 256) (cy' - ay') / 2
              + Int.tdiv ((cx' - ax') * 256) (cy' - ay') * (by' - ay'))
            (bx' * 256 + Int.tdiv ((cx' - bx') * 256) (cy' - by') / 2)
            buf1
            (refRun buf ay' by'
              (ax' * 256 + Int.tdiv ((cx' - ax') * 256) (cy' - ay') / 2)
              (ax' * 256 + Int.tdiv ((bx' - ax') * 256) (by' - ay') / 2)
              (Int.tdiv ((cx' - ax') * 256) (cy' - ay'))
              (Int.tdiv ((bx' - ax') * 256) (by' - ay')) c)
            (le_refl _) (by omega) (by omega) hB2 hPix1
          simp only [if_pos hBot, hEq2]
          rw [refRows_top ax' ay' bx' by' cx' cy' c hTop (by omega)
            ((by' - ay').toNat) ay' buf (le_refl _) (le_refl _) (by omega)]
          rw [show ax' * 256 + Int.tdiv ((cx' - ax') * 256) (cy' - ay') * (ay' - ay')
                + Int.tdiv ((cx' - ax') * 256) (cy' - ay') / 2
              = ax' * 256 + Int.tdiv ((cx' - ax') * 256) (cy' - ay') / 2 by ring,
            show ax' * 256 + Int.tdiv ((bx' - ax') * 256) (by' - ay') * (ay' - ay')
                + Int.tdiv ((bx' - ax') * 256) (by' - ay') / 2
              = ax' * 256 + Int.tdiv ((bx' - ax') * 256) (by' - ay') / 2 by ring]
          rw [refRows_bottom ax' ay' bx' by' cx' cy' c hBot
            ((cy' - by').toNat) by' _ (le_refl _) (le_refl _) (by omega)]
          rw [show ax' * 256 + Int.tdiv ((cx' - ax') * 256) (cy' - ay') * (by' - ay')
                + Int.tdiv ((cx' - ax') * 256) (cy' - ay') / 2
              = ax' * 256 + Int.tdiv ((cx' - ax') * 256) (cy' - ay') / 2
                + Int.tdiv ((cx' - ax') * 256) (cy' - ay') * (by' - ay') by ring,
            show bx' * 256 + Int.tdiv ((cx' - bx') * 256) (cy' - by') * (by' - by')
                + Int.tdiv ((cx' - bx') * 256) (cy' - by') / 2
              = bx' * 256 + Int.tdiv ((cx' - bx') * 256) (cy' - by') / 2 by ring]
          exact hPix2
        · -- flat-bottom: by' = cy', only the top trapezoid
          have hbycy : by' = cy' := by omega
          simp only [if_neg hBot]
          rw [refRows_top ax' ay' bx' by' cx' cy' c hTop (by omega)
            ((by' - ay').toNat) ay' buf (le_refl _) (le_refl _) (by omega)]
          rw [show ax' * 256 + Int.tdiv ((cx' - ax') * 256) (cy' - ay') * (ay' - ay')
                + Int.tdiv ((cx' - ax') * 256) (cy' - ay') / 2
              = ax' * 256 + Int.tdiv ((cx' - ax') * 256) (cy' - ay') / 2 by ring,
            show ax' * 256 + Int.tdiv ((bx' - ax') * 256) (by' - ay') * (ay' - ay')
                + Int.tdiv ((bx' - ax') * 256) (by' - ay') / 2
              = ax' * 256 + Int.tdiv ((bx' - ax') * 256) (by' - ay') / 2 by ring]
          rw [refRows, dif_neg (show ¬ by' < cy' from hBot)]
          exact hPix1
      · -- flat-top: ay' = by', only the bottom trapezoid
        have haeq : ay' = by' := by omega
        have hBot : by' < cy' := by omega
        have hB2 : ∀ jj : Int, ay' ≤ jj → jj < cy' →
            (0 ≤ ax' * 256 + Int.tdiv ((cx' - ax') * 256) (cy' - ay') / 2
                + Int.tdiv ((cx' - ax') * 256) (cy' - ay') * (jj - ay') ∧
              ax' * 256 + Int.tdiv ((cx' - ax') * 256) (cy' - ay') / 2
                + Int.tdiv ((cx' - ax') * 256) (cy' - ay') * (jj - ay') ≤ 79 * 256 + 255) ∧
            (0 ≤ bx' * 256 + Int.tdiv ((cx' - bx') * 256) (cy' - by') / 2
                + Int.tdiv ((cx' - bx') * 256) (cy' - by') * (jj - ay') ∧
              bx' * 256 + Int.tdiv ((cx' - bx') * 256) (cy' - by') / 2
                + Int.tdiv ((cx' - bx') * 256) (cy' - by') * (jj - ay') ≤ 79 * 256 + 255) := by
          intro jj hj1 hj2
          have hAC := edge_fp_bounds ax' ay' cx' cy' (jj - ay') hv1.1 hv1.2 hv5.1 hv5.2
            haylt (by omega) (by omega) (by omega)
          have hBC := edge_fp_bounds bx' by' cx' cy' (jj - by') hv3.1 hv3.2 hv5.1 hv5.2
            hBot (by omega) (by omega) (by omega)
          refine ⟨⟨by linarith [hAC.1], by linarith [hAC.2]⟩, ⟨?_, ?_⟩⟩
          · have := hBC.1
            have hjj : jj - by' = jj - ay' := by omega
            rw [hjj] at this
            linarith [this]
          · have := hBC.2
            have hjj : jj - by' = jj - ay' := by omega
            rw [hjj] at this
            linarith [this]
        obtain ⟨buf2o, hEq2, hPix2⟩ := scanHalf_spec
          (Int.tdiv ((cx' - ax') * 256) (cy' - ay'))
          (Int.tdiv ((cx' - bx') * 256) (cy' - by'))
          (decide (sw % 2 = 1)) c cy' hc (by omega)
          ((cy' - ay').toNat) ay'
          (ax' * 256 + Int.tdiv ((cx' - ax') * 256) (cy' - ay') / 2)
          (bx' * 256 + Int.tdiv ((cx' - bx') * 256) (cy' - by') / 2)
          buf buf (le_refl _) (by omega) (by omega) hB2 (pixEq_refl buf)
        simp only [if_neg hTop, if_pos hBot, hEq2]
        rw [refRows_bottom ax' ay' bx' by' cx' cy' c hBot
          ((cy' - ay').toNat) ay' buf (by omega) (by omega) (by omega)]
        rw [show ax' * 256 + Int.tdiv ((cx' - ax') * 256) (cy' - ay') * (ay' - ay')
              + Int.tdiv ((cx' - ax') * 256) (cy' - ay') / 2
            = ax' * 256 + Int.tdiv ((cx' - ax') * 256) (cy' - ay') / 2 by ring,
          show bx' * 256 + Int.tdiv ((cx' - bx') * 256) (cy' - by') * (ay' - by')
              + Int.tdiv ((cx' - bx') * 256) (cy' - by') / 2
            = bx' * 256 + Int.tdiv ((cx' - bx') * 256) (cy' - by') / 2 by
            rw [show ay' - by' = 0 by omega]; ring]
        exact hPix2

theorem C2_draw_triangle_reference_equiv_witness :
    ((0 : Int) ≤ 40 ∧ (40 : Int) < 80 ∧ (0 : Int) ≤ 25 ∧ (25 : Int) < 50 ∧
      (0 : Int) ≤ 56 ∧ (56 : Int) < 80 ∧ (0 : Int) ≤ 34 ∧ (34 : Int) < 50 ∧
      (0 : Int) ≤ 40 ∧ (40 : Int) < 80 ∧ (0 : Int) ≤ 43 ∧ (43 : Int) < 50 ∧ (1 : Nat) ≤ 3) ∧
    get_pixel (draw_triangle buf0 40 25 56 34 40 43 1) 44 30 =
      get_pixel (reference_triangle buf0 40 25 56 34 40 43 1) 44 30 :=
  ⟨by decide,
   C2_draw_triangle_reference_equiv buf0 40 25 56 34 40 43 1 (by decide) (by decide)
     (by decide) (by decide) (by decide) (by decide) (by decide) (by decide) (by decide)
     (by decide) (by decide) (by decide) (by decide) 44 30⟩

end C64
